import Mathlib

/-!
# vault-kubernetes-authenticator: a shallow embedding of `main.go`

The program reads a Kubernetes service-account JWT from disk, posts it to
Vault's Kubernetes login endpoint and stores the returned client token in a
file.  This development embeds `main`, `readJwtToken`, `authenticate` and
`saveToken` as Lean functions over an explicit environment (process
environment variables, file system, HTTP peer, I/O faults) and proves
properties of them.

Conventions of the embedding

* A Go `string` / `[]byte` is a `List Char`: the text is taken to be valid
  UTF-8 and is represented by its sequence of code points.  Where the bytes
  themselves matter, for the request body, a string is `Bytes` and UTF-8 is
  embedded after `unicode/utf8`.
* A Go `error` is its message (`GoError`); `nil` is `none`.
* Library calls (`ioutil.ReadFile`, `ioutil.WriteFile`, `http.NewRequest`,
  `client.Do`, `json.Decoder.Decode`, `bytes.TrimSpace`, `fmt.Sprintf`) are
  embedded by what the Go standard library documents and implements for
  them; what the operating system or the network decides is a field of
  `World`.
-/

namespace VaultAuth

/-! ## Strings and errors -/

/-- A Go string, as its sequence of code points. -/
abbrev GoString := List Char

/-- A non-nil Go `error`, represented by its message. -/
structure GoError where
  msg : GoString
deriving DecidableEq, Repr

/-- The function `errors.Wrap(err, message)` of `github.com/pkg/errors`: the
message of the result is `message + ": " + err.Error()`. -/
def errorsWrap (err : GoError) (message : GoString) : GoError :=
  ⟨message ++ ": ".toList ++ err.msg⟩

/-! ## `bytes.TrimSpace` -/

/-- The predicate `unicode.IsSpace`: the Latin-1 spaces `\t \n \v \f \r`,
space, U+0085, U+00A0, and the other code points of the Unicode `White_Space`
property. -/
def isSpace (c : Char) : Bool :=
  let r := c.toNat
  if r ≤ 0xFF then
    r == 0x09 || r == 0x0A || r == 0x0B || r == 0x0C || r == 0x0D || r == 0x20 ||
      r == 0x85 || r == 0xA0
  else
    r == 0x1680 || (0x2000 ≤ r && r ≤ 0x200A) || r == 0x2028 || r == 0x2029 ||
      r == 0x202F || r == 0x205F || r == 0x3000

/-- The function `bytes.TrimLeftFunc(s, unicode.IsSpace)`: drop code points
from the front while they are white space. -/
def trimLeftSpace : GoString → GoString
  | [] => []
  | c :: cs => if isSpace c then trimLeftSpace cs else c :: cs

/-- The function `bytes.TrimRightFunc(s, unicode.IsSpace)`: drop code points
from the back while they are white space. -/
def trimRightSpace : GoString → GoString
  | [] => []
  | c :: cs =>
    match trimRightSpace cs with
    | [] => if isSpace c then [] else [c]
    | r => c :: r

/-- The function `bytes.TrimSpace`: white space removed at both ends. -/
def TrimSpace (s : GoString) : GoString :=
  trimRightSpace (trimLeftSpace s)

/-! ## The file system -/

/-- A regular file: its content and its permission bits. -/
structure File where
  data : GoString
  mode : Nat
deriving DecidableEq, Repr

/-- The file system: the regular file found at each path, if any. -/
abbrev FS := GoString → Option File

/-- What can go wrong inside one `ioutil.WriteFile` call. -/
inductive WriteFault where
  /-- Nothing fails. -/
  | none
  /-- The call `os.OpenFile` fails: nothing is created or truncated. -/
  | openFails (e : GoError)
  /-- The file was opened (created or truncated), then `Write` stored only the
  first `n` bytes and failed. -/
  | writeFails (n : Nat) (e : GoError)
  /-- Everything was written, then `Close` failed. -/
  | closeFails (e : GoError)
deriving DecidableEq, Repr

/-! ## JSON text, as `encoding/json` scans it -/

/-- A JSON value.  A number keeps its literal text. -/
inductive JSON where
  | null
  | bool (b : Bool)
  | number (lit : GoString)
  | string (s : GoString)
  | array (elems : List JSON)
  | object (members : List (GoString × JSON))

instance : Inhabited JSON := ⟨JSON.null⟩

/-- The white space of `encoding/json`'s scanner: space, tab, CR, LF. -/
def isJSONSpace (c : Char) : Bool :=
  c == ' ' || c == '\t' || c == '\r' || c == '\n'

/-- Skip JSON white space. -/
def skipSpace : GoString → GoString
  | [] => []
  | c :: cs => if isJSONSpace c then skipSpace cs else c :: cs

/-- The value of a hexadecimal digit. -/
def hexVal (c : Char) : Option Nat :=
  if '0' ≤ c ∧ c ≤ '9' then some (c.toNat - '0'.toNat)
  else if 'a' ≤ c ∧ c ≤ 'f' then some (c.toNat - 'a'.toNat + 10)
  else if 'A' ≤ c ∧ c ≤ 'F' then some (c.toNat - 'A'.toNat + 10)
  else none

/-- The scanner's states inside a string literal (`stateInString`,
`stateInStringEsc`, `stateInStringEscU` with the hex digits still owed). -/
inductive StrState where
  | inString
  | esc
  | escU (owed : Nat)
deriving DecidableEq, Repr

/-- Scan a string literal whose opening quote has been consumed: the raw text
up to the closing quote and what follows it.  A control character, an unknown
escape, a bad `\u` digit or the end of input inside the literal is a syntax
error. -/
def scanString : StrState → GoString → Option (GoString × GoString)
  | _, [] => none
  | .inString, c :: cs =>
    if c = '"' then some ([], cs)
    else if c = '\\' then (scanString .esc cs).map fun r => (c :: r.1, r.2)
    else if c.toNat < 0x20 then none
    else (scanString .inString cs).map fun r => (c :: r.1, r.2)
  | .esc, c :: cs =>
    if c = 'b' ∨ c = 'f' ∨ c = 'n' ∨ c = 'r' ∨ c = 't' ∨ c = '\\' ∨ c = '/' ∨ c = '"' then
      (scanString .inString cs).map fun r => (c :: r.1, r.2)
    else if c = 'u' then (scanString (.escU 4) cs).map fun r => (c :: r.1, r.2)
    else none
  | .escU owed, c :: cs =>
    if (hexVal c).isSome then
      (scanString (if owed ≤ 1 then .inString else .escU (owed - 1)) cs).map
        fun r => (c :: r.1, r.2)
    else none

/-- The function `getu4` of `encoding/json`: the code unit written by the six
characters `\uXXXX` at the head of the text. -/
def getu4 : GoString → Option (Nat × GoString)
  | b :: u :: h1 :: h2 :: h3 :: h4 :: rest =>
    if b = '\\' ∧ u = 'u' then
      match hexVal h1, hexVal h2, hexVal h3, hexVal h4 with
      | some a, some b, some c, some d => some (((a * 16 + b) * 16 + c) * 16 + d, rest)
      | _, _, _, _ => none
    else none
  | _ => none

/-- The character a one-letter escape stands for. -/
def unescapeChar (c : Char) : Char :=
  if c = 'b' then Char.ofNat 8
  else if c = 'f' then Char.ofNat 12
  else if c = 'n' then '\n'
  else if c = 'r' then '\r'
  else if c = 't' then '\t'
  else c

/-- The function `unquote` of `encoding/json` on the raw text of a scanned
literal: escapes are replaced by what they stand for, a surrogate pair by its
code point, and a lone surrogate by U+FFFD.  The first argument bounds the
number of steps; the length of the text is enough. -/
def unquote : Nat → GoString → GoString
  | 0, _ => []
  | _ + 1, [] => []
  | n + 1, c :: cs =>
    if c = '\\' then
      match cs with
      | [] => []
      | e :: rest =>
        if e = 'u' then
          match getu4 (c :: cs) with
          | none => []
          | some (rr, rest1) =>
            if 0xD800 ≤ rr ∧ rr < 0xE000 then
              match getu4 rest1 with
              | some (rr1, rest2) =>
                if rr < 0xDC00 ∧ 0xDC00 ≤ rr1 ∧ rr1 < 0xE000 then
                  Char.ofNat ((rr - 0xD800) * 0x400 + (rr1 - 0xDC00) + 0x10000) :: unquote n rest2
                else Char.ofNat 0xFFFD :: unquote n rest1
              | none => Char.ofNat 0xFFFD :: unquote n rest1
            else Char.ofNat rr :: unquote n rest1
        else unescapeChar e :: unquote n rest
    else c :: unquote n cs

/-- Is the character a decimal digit? -/
def isDigit (c : Char) : Bool := '0' ≤ c && c ≤ '9'

/-- Split off the longest run of decimal digits. -/
def spanDigits : GoString → GoString × GoString
  | [] => ([], [])
  | c :: cs => if isDigit c then ((spanDigits cs).1.cons c, (spanDigits cs).2) else ([], c :: cs)

/-- Scan the exponent part of a number, if there is one (`stateE`,
`stateESign`, `stateE0`). -/
def scanExponent (s : GoString) : Option (GoString × GoString) :=
  match s with
  | e :: t =>
    if e = 'e' ∨ e = 'E' then
      match t with
      | g :: t1 =>
        if g = '+' ∨ g = '-' then
          match spanDigits t1 with
          | ([], _) => none
          | (ds, r) => some (e :: g :: ds, r)
        else
          match spanDigits t with
          | ([], _) => none
          | (ds, r) => some (e :: ds, r)
      | [] => none
    else some ([], s)
  | [] => some ([], s)

/-- Scan the fraction part of a number, if there is one (`stateDot`,
`stateDot0`), and then the exponent. -/
def scanFraction (s : GoString) : Option (GoString × GoString) :=
  match s with
  | d :: t =>
    if d = '.' then
      match spanDigits t with
      | ([], _) => none
      | (ds, r) => (scanExponent r).map fun x => (d :: ds ++ x.1, x.2)
    else scanExponent s
  | [] => some ([], s)

/-- Scan the digits of a number after its optional sign (`state0`,
`state1`). -/
def scanUnsigned (s : GoString) : Option (GoString × GoString) :=
  match s with
  | c :: t =>
    if c = '0' then (scanFraction t).map fun x => (c :: x.1, x.2)
    else if isDigit c then
      (scanFraction (spanDigits t).2).map fun x => (c :: (spanDigits t).1 ++ x.1, x.2)
    else none
  | [] => none

/-- Scan a number literal: its text and what follows it. -/
def scanNumber (s : GoString) : Option (GoString × GoString) :=
  match s with
  | c :: t => if c = '-' then (scanUnsigned t).map fun x => (c :: x.1, x.2) else scanUnsigned s
  | [] => none

/-- Consume the given literal text at the head of the input. -/
def expectLit : GoString → GoString → Option GoString
  | [], s => some s
  | _ :: _, [] => none
  | l :: ls, c :: cs => if l = c then expectLit ls cs else none

/-- The scanner's `maxNestingDepth`: arrays and objects may nest this deep. -/
def maxNestingDepth : Nat := 10000

mutual
/-- Read one JSON value at the head of the text (after white space): the value
and the text that follows it, or `none` on a syntax error.  The first
argument bounds the number of nested calls; `parseJSON` supplies enough. -/
def parseValue : Nat → Nat → GoString → Option (JSON × GoString)
  | 0, _, _ => none
  | fuel + 1, depth, s =>
    match skipSpace s with
    | [] => none
    | c :: cs =>
      if c = '{' then
        if depth < maxNestingDepth then
          match skipSpace cs with
          | [] => none
          | d :: ds =>
            if d = '}' then some (.object [], ds)
            else (parseMembers fuel (depth + 1) (d :: ds)).map fun r => (.object r.1, r.2)
        else none
      else if c = '[' then
        if depth < maxNestingDepth then
          match skipSpace cs with
          | [] => none
          | d :: ds =>
            if d = ']' then some (.array [], ds)
            else (parseElems fuel (depth + 1) (d :: ds)).map fun r => (.array r.1, r.2)
        else none
      else if c = '"' then
        (scanString .inString cs).map fun r => (.string (unquote r.1.length r.1), r.2)
      else if c = 't' then (expectLit "rue".toList cs).map fun r => (.bool true, r)
      else if c = 'f' then (expectLit "alse".toList cs).map fun r => (.bool false, r)
      else if c = 'n' then (expectLit "ull".toList cs).map fun r => (.null, r)
      else (scanNumber (c :: cs)).map fun r => (.number r.1, r.2)
/-- Read the members of an object up to and including its closing brace; the
text starts at the first member. -/
def parseMembers : Nat → Nat → GoString → Option (List (GoString × JSON) × GoString)
  | 0, _, _ => none
  | fuel + 1, depth, s =>
    match skipSpace s with
    | [] => none
    | q :: cs =>
      if q = '"' then
        match scanString .inString cs with
        | none => none
        | some (raw, r1) =>
          match skipSpace r1 with
          | [] => none
          | colon :: r2 =>
            if colon = ':' then
              match parseValue fuel depth r2 with
              | none => none
              | some (v, r3) =>
                match skipSpace r3 with
                | [] => none
                | sep :: r4 =>
                  if sep = ',' then
                    (parseMembers fuel depth r4).map
                      fun r => ((unquote raw.length raw, v) :: r.1, r.2)
                  else if sep = '}' then some ([(unquote raw.length raw, v)], r4)
                  else none
            else none
      else none
/-- Read the elements of an array up to and including its closing bracket;
the text starts at the first element. -/
def parseElems : Nat → Nat → GoString → Option (List JSON × GoString)
  | 0, _, _ => none
  | fuel + 1, depth, s =>
    match parseValue fuel depth s with
    | none => none
    | some (v, r1) =>
      match skipSpace r1 with
      | [] => none
      | sep :: r2 =>
        if sep = ',' then (parseElems fuel depth r2).map fun r => (v :: r.1, r.2)
        else if sep = ']' then some ([v], r2)
        else none
end

/-- The first JSON value of a text and the text after it. -/
def parseJSON (s : GoString) : Option (JSON × GoString) :=
  parseValue (s.length + 1) 0 s

/-- A JSON document: one value and nothing but white space after it (what
`json.Valid` and `json.Unmarshal` accept). -/
def parseDocument (s : GoString) : Option JSON :=
  match parseJSON s with
  | some (v, rest) => if skipSpace rest = [] then some v else none
  | none => none

/-! ## Decoding into the response struct of `authenticate` -/

/-- The inner struct `s.Auth`. -/
structure AuthField where
  ClientToken : GoString
deriving DecidableEq, Repr

/-- The variable `s` of `authenticate`:
`struct { Auth struct { ClientToken string "json:\"client_token\"" } "json:\"auth\"" }`. -/
structure LoginResponse where
  Auth : AuthField
deriving DecidableEq, Repr

/-- The zero value of `s`. -/
def LoginResponse.zero : LoginResponse := ⟨⟨[]⟩⟩

/-- Case folding as `encoding/json` uses it to compare an object key with a
field name: ASCII letters fold to upper case, and U+212A (Kelvin sign) and
U+017F (long s), the two other code points that fold onto an ASCII letter, to
`K` and `S`.  Code points that fold onto no ASCII letter are left in place,
which changes no comparison with the ASCII names `auth` and `client_token`. -/
def foldRune (c : Char) : Char :=
  if 'a' ≤ c ∧ c ≤ 'z' then Char.ofNat (c.toNat - 32)
  else if c.toNat = 0x212A then 'K'
  else if c.toNat = 0x17F then 'S'
  else c

/-- Does an object key select the struct field with the given JSON name?  An
exact match is looked up first, then a case-insensitive one. -/
def matchesField (name key : GoString) : Bool :=
  key == name || key.map foldRune == name.map foldRune

/-- The method `decodeState.saveError`: the first error is kept, decoding goes
on. -/
def saveError (saved : Option GoError) (e : GoError) : Option GoError :=
  match saved with
  | some first => some first
  | none => some e

/-- An `*json.UnmarshalTypeError` for a JSON value of the named kind (the
message is abbreviated). -/
def unmarshalTypeError (kind : String) : GoError :=
  ⟨"json: cannot unmarshal ".toList ++ kind.toList ++ " into Go value".toList⟩

/-- Store a JSON value into the `string` field `ClientToken`: a string is
stored, `null` leaves the field as it is, anything else is a type error. -/
def storeClientToken (v : JSON) (st : AuthField × Option GoError) : AuthField × Option GoError :=
  match v with
  | .null => st
  | .string t => (⟨t⟩, st.2)
  | .bool _ => (st.1, saveError st.2 (unmarshalTypeError "bool"))
  | .number _ => (st.1, saveError st.2 (unmarshalTypeError "number"))
  | .array _ => (st.1, saveError st.2 (unmarshalTypeError "array"))
  | .object _ => (st.1, saveError st.2 (unmarshalTypeError "object"))

/-- Decode the members of an object into `s.Auth`, in the order of the text:
a member whose key selects `client_token` is stored, any other is skipped. -/
def decodeAuthMembers :
    List (GoString × JSON) → AuthField × Option GoError → AuthField × Option GoError
  | [], st => st
  | (k, v) :: ms, st =>
    decodeAuthMembers ms (if matchesField "client_token".toList k then storeClientToken v st else st)

/-- Store a JSON value into the struct field `Auth`: an object is decoded
member by member into the struct as it stands, `null` leaves it as it is,
anything else is a type error. -/
def storeAuth (v : JSON) (st : AuthField × Option GoError) : AuthField × Option GoError :=
  match v with
  | .null => st
  | .object ms => decodeAuthMembers ms st
  | .bool _ => (st.1, saveError st.2 (unmarshalTypeError "bool"))
  | .number _ => (st.1, saveError st.2 (unmarshalTypeError "number"))
  | .string _ => (st.1, saveError st.2 (unmarshalTypeError "string"))
  | .array _ => (st.1, saveError st.2 (unmarshalTypeError "array"))

/-- Decode the members of the top-level object into `s`. -/
def decodeLoginMembers :
    List (GoString × JSON) → AuthField × Option GoError → AuthField × Option GoError
  | [], st => st
  | (k, v) :: ms, st =>
    decodeLoginMembers ms (if matchesField "auth".toList k then storeAuth v st else st)

/-- The method `decodeState.unmarshal` into the zero-valued `s`: the decoded
struct and the saved error. -/
def unmarshal (v : JSON) : LoginResponse × Option GoError :=
  match v with
  | .null => (LoginResponse.zero, none)
  | .object ms =>
    let r := decodeLoginMembers ms (LoginResponse.zero.Auth, none)
    (⟨r.1⟩, r.2)
  | .bool _ => (LoginResponse.zero, some (unmarshalTypeError "bool"))
  | .number _ => (LoginResponse.zero, some (unmarshalTypeError "number"))
  | .string _ => (LoginResponse.zero, some (unmarshalTypeError "string"))
  | .array _ => (LoginResponse.zero, some (unmarshalTypeError "array"))

/-- Is the value an array or an object?  The scanner knows such a value is
complete at its closing bracket; any other value only at the next byte or at
the end of the stream. -/
def JSON.isComposite : JSON → Bool
  | .array _ => true
  | .object _ => true
  | _ => false

/-! ## HTTP -/

/-- An `*http.Request`, as far as `authenticate` builds it. -/
structure Request where
  method : GoString
  url : GoString
  header : List (GoString × GoString)
  body : GoString
deriving DecidableEq, Repr

/-- A response body as an `io.Reader`: the bytes it delivers, then either the
end of the stream (`none`) or a read error. -/
structure BodyStream where
  data : GoString
  err : Option GoError
deriving DecidableEq, Repr

/-- An `*http.Response`.  Of what `%#v` prints for it, the quoted `Status` and
the fields after `StatusCode` (protocol, headers, pointers) are kept as text. -/
structure Response where
  StatusCode : Int
  statusQuoted : GoString
  otherFields : GoString
  Body : BodyStream
deriving DecidableEq, Repr

/-- The method `Header.Set`: the value of the key is replaced. -/
def headerSet (h : List (GoString × GoString)) (k v : GoString) : List (GoString × GoString) :=
  (k, v) :: h.filter fun kv => !(kv.1 == k)

/-! ## The environment of a run -/

/-- Everything outside the program that a run depends on. -/
structure World where
  /-- The process environment; `none` for an unset variable. -/
  env : GoString → Option GoString
  /-- The file system when the process starts. -/
  fs : FS
  /-- The file-creation mask of the process. -/
  umask : Nat
  /-- A failure of `ioutil.ReadFile` on a path (permission denied, I/O fault). -/
  readFault : GoString → Option GoError
  /-- A failure inside `ioutil.WriteFile` of the data to a path. -/
  writeFault : GoString → GoString → WriteFault
  /-- What `url.Parse` rejects beyond control characters before the fragment. -/
  urlFault : GoString → Option GoError
  /-- The HTTP exchange done by `client.Do`: a transport error or a response. -/
  roundTrip : Request → Except GoError Response

/-- The function `os.Getenv`: the empty string for an unset variable. -/
def Getenv (w : World) (name : String) : GoString :=
  (w.env name.toList).getD []

/-- The function `stringContainsCTLByte` of `net/url`. -/
def stringContainsCTLByte (s : GoString) : Bool :=
  s.any fun c => c.toNat < 0x20 || c.toNat == 0x7F

/-- The error of `url.Parse` on a raw URL, if any.  `url.Parse` cuts the
fragment off at the first `#` and refuses a control character in what stands
before it; the rest of the URL grammar is left to `World.urlFault`. -/
def urlParseError (w : World) (rawURL : GoString) : Option GoError :=
  if stringContainsCTLByte (rawURL.takeWhile fun c => c != '#') then
    some ⟨"parse: net/url: invalid control character in URL".toList⟩
  else w.urlFault rawURL

/-- The function `http.NewRequest`: a request and a nil error, or a nil request
and the error of parsing the URL. -/
def NewRequest (w : World) (method url body : GoString) : Option Request × Option GoError :=
  match urlParseError w url with
  | some e => (none, some e)
  | none => (some ⟨method, url, [], body⟩, none)

/-- The function `ioutil.ReadFile`. -/
def ReadFile (w : World) (path : GoString) : GoString × Option GoError :=
  match w.readFault path with
  | some e => ([], some e)
  | none =>
    match w.fs path with
    | none => ([], some ⟨"open ".toList ++ path ++ ": no such file or directory".toList⟩)
    | some f => (f.data, none)

/-- The function `ioutil.WriteFile(name, data, perm)`: `os.OpenFile` with
`O_WRONLY|O_CREATE|O_TRUNC`, one `Write`, `Close`.  A file that exists is
truncated and keeps its mode; a new file gets `perm` less the bits of the
umask.  The result is the file system afterwards and the error. -/
def WriteFile (w : World) (fs : FS) (name data : GoString) (perm : Nat) : FS × Option GoError :=
  let opened : File :=
    match fs name with
    | some f => ⟨[], f.mode⟩
    | none => ⟨[], perm &&& (0o777 ^^^ (w.umask % 0o1000))⟩
  let put (f : File) : FS := fun p => if p = name then some f else fs p
  match w.writeFault name data with
  | .openFails e => (fs, some e)
  | .writeFails n e => (put ⟨data.take n, opened.mode⟩, some e)
  | .closeFails e => (put ⟨data, opened.mode⟩, some e)
  | .none => (put ⟨data, opened.mode⟩, none)

/-- The method `json.NewDecoder(body).Decode(&s)` on the zero-valued `s`.  The
first JSON value of the stream is scanned and then unmarshalled; what follows
it is not looked at.  A syntax error, or a stream that ends or fails before
the value is complete, is an error (which error value it is, is not
modelled).  An array or object is complete at its closing bracket; any other
value is complete at the byte after it or at the end of the stream, so when
the stream fails right after such a value the read error is returned. -/
def Decode (b : BodyStream) : LoginResponse × Option GoError :=
  match parseJSON b.data with
  | none => (LoginResponse.zero, some (b.err.getD ⟨"json: invalid or truncated input".toList⟩))
  | some (v, rest) =>
    if !v.isComposite && rest.isEmpty && b.err.isSome then
      (LoginResponse.zero, b.err)
    else unmarshal v

/-! ## The functions of `main.go` -/

/-- How a Go function call ends: it returns, or it panics. -/
inductive Outcome (α : Type) where
  | ret (a : α)
  | panic (msg : GoString)
deriving DecidableEq, Repr

/-- The run-time panic of a method call through a nil pointer. -/
def nilDereference : GoString :=
  "runtime error: invalid memory address or nil pointer dereference".toList

/-- What a call of `authenticate` does: how it ends, with the returned
`(string, error)` pair, and the requests it handed to `client.Do`. -/
structure AuthResult where
  outcome : Outcome (GoString × Option GoError)
  sent : List Request
deriving DecidableEq, Repr

/-- The function `readJwtToken` (main.go, lines 70-77). -/
def readJwtToken (w : World) (path : GoString) : GoString × Option GoError :=
  match ReadFile w path with
  | (_, some err) => ([], some (errorsWrap err "failed to read jwt token".toList))
  | (data, none) => (TrimSpace data, none)

/-- The request body of line 84:
`fmt.Sprintf("{\"role\": \"%s\", \"jwt\": \"%s\"}", role, jwt)`; the verb `%s`
inserts the string as it is. -/
def requestBody (role jwt : GoString) : GoString :=
  "\x7b\"role\": \"".toList ++ role ++ "\", \"jwt\": \"".toList ++ jwt ++ "\"\x7d".toList

/-- The login address of line 83. -/
def loginAddr (vaultAddr vaultK8SMountPath : GoString) : GoString :=
  vaultAddr ++ "/v1/auth/".toList ++ vaultK8SMountPath ++ "/login".toList

/-- What `%#v` prints for the response pointer. -/
def responseGoSyntax (resp : Response) : GoString :=
  "&http.Response\x7bStatus:".toList ++ resp.statusQuoted ++ ", StatusCode:".toList ++
    (toString resp.StatusCode).toList ++ ", ".toList ++ resp.otherFields ++ "\x7d".toList

/-- The error of lines 101-102:
`fmt.Errorf("failed to get successful response: %#v, %s", resp, b.String())`. -/
def rejectedError (resp : Response) (b : GoString) : GoError :=
  ⟨"failed to get successful response: ".toList ++ responseGoSyntax resp ++ ", ".toList ++ b⟩

/-- The function `authenticate` (main.go, lines 79-116), with the package
variables `vaultAddr` and `vaultK8SMountPath` as arguments.  Line 87 calls
`req.Header.Set` before line 88 looks at the error of `http.NewRequest`. -/
def authenticate (w : World) (vaultAddr vaultK8SMountPath role jwt : GoString) : AuthResult :=
  let addr := loginAddr vaultAddr vaultK8SMountPath
  let body := requestBody role jwt
  let (req, err) := NewRequest w "POST".toList addr body
  match req with
  | none => ⟨.panic nilDereference, []⟩
  | some r =>
    let r : Request := { r with header := headerSet r.header "Content-Type".toList "application/json".toList }
    match err with
    | some e => ⟨.ret ([], some (errorsWrap e "failed to create request".toList)), []⟩
    | none =>
      match w.roundTrip r with
      | .error e => ⟨.ret ([], some (errorsWrap e "failed to login".toList)), [r]⟩
      | .ok resp =>
        if resp.StatusCode ≠ 200 then
          -- io.Copy(&b, resp.Body): everything the body delivers; its error is dropped
          let b := resp.Body.data
          ⟨.ret ([], some (rejectedError resp b)), [r]⟩
        else
          match Decode resp.Body with
          | (_, some e) => ⟨.ret ([], some (errorsWrap e "failed to read body".toList)), [r]⟩
          | (s, none) => ⟨.ret (s.Auth.ClientToken, none), [r]⟩

/-- The function `saveToken` (main.go, lines 118-123): the file system
afterwards and the returned error. -/
def saveToken (w : World) (fs : FS) (token dest : GoString) : FS × Option GoError :=
  match WriteFile w fs dest token 0o600 with
  | (fs1, some err) => (fs1, some (errorsWrap err "failed to save token".toList))
  | (fs1, none) => (fs1, none)

/-- An input/output action of a run, in the order of execution. -/
inductive Event where
  | readFile (path : GoString)
  | httpDo (req : Request)
  | writeFile (path data : GoString) (perm : Nat)
deriving DecidableEq, Repr

/-- How the process ends. -/
inductive ExitStatus where
  | exited (code : Nat)
  | panicked
deriving DecidableEq, Repr

/-- The exit code the parent process sees; a Go panic exits with 2. -/
def ExitStatus.code : ExitStatus → Nat
  | .exited c => c
  | .panicked => 2

/-- A run of the program: how it ended, its input/output actions, the file
system it leaves, and the lines it logged. -/
structure Run where
  status : ExitStatus
  events : List Event
  fs : FS
  log : List GoString

/-- The value of an environment variable, or the default when it is unset or
empty (lines 23-26, 28-31, 38-41, 43-46). -/
def getenvOr (w : World) (name dflt : String) : GoString :=
  if Getenv w name = [] then dflt.toList else Getenv w name

/-- The function `main` (main.go, lines 22-68).  `log.Fatal` logs and exits
with status 1. -/
def main (w : World) : Run :=
  let vaultAddr := getenvOr w "VAULT_ADDR" "https://127.0.0.1:8200"
  let vaultK8SMountPath := getenvOr w "VAULT_K8S_MOUNT_PATH" "kubernetes"
  let role := Getenv w "VAULT_ROLE"
  if role = [] then
    ⟨.exited 1, [], w.fs, ["missing VAULT_ROLE".toList]⟩
  else
    let dest := getenvOr w "TOKEN_DEST_PATH" "/.vault-token"
    let saPath := getenvOr w "SERVICE_ACCOUNT_PATH"
      "/var/run/secrets/kubernetes.io/serviceaccount/token"
    match readJwtToken w saPath with
    | (_, some err) => ⟨.exited 1, [.readFile saPath], w.fs, [err.msg]⟩
    | (jwt, none) =>
      let a := authenticate w vaultAddr vaultK8SMountPath role jwt
      let io := Event.readFile saPath :: a.sent.map Event.httpDo
      match a.outcome with
      | .panic m => ⟨.panicked, io, w.fs, ["panic: ".toList ++ m]⟩
      | .ret (_, some err) => ⟨.exited 1, io, w.fs, [err.msg]⟩
      | .ret (token, none) =>
        match saveToken w w.fs token dest with
        | (fs1, some err) => ⟨.exited 1, io ++ [.writeFile dest token 0o600], fs1, [err.msg]⟩
        | (fs1, none) =>
          ⟨.exited 0, io ++ [.writeFile dest token 0o600], fs1,
            ["successfully stored vault token at ".toList ++ dest]⟩

/-! ## Sample environments -/

/-- An environment given by lists: the variables that are set, the files that
exist (path, content, mode), the answer of the HTTP peer and the fault of a
write.  The umask is 022, reads of existing files succeed and `url.Parse`
refuses nothing but control characters. -/
def World.sample (vars : List (String × String)) (files : List (String × String × Nat))
    (peer : Request → Except GoError Response) (wf : WriteFault) : World where
  env := fun n => (vars.find? fun kv => kv.1.toList == n).map fun kv => kv.2.toList
  fs := fun p => (files.find? fun f => f.1.toList == p).map fun f => ⟨f.2.1.toList, f.2.2⟩
  umask := 0o022
  readFault := fun _ => none
  writeFault := fun _ _ => wf
  urlFault := fun _ => none
  roundTrip := peer

/-- A peer that answers every request with the given status code and body. -/
def answer (code : Int) (body : String) : Request → Except GoError Response :=
  fun _ => .ok ⟨code, "\"\"".toList, "Proto:\"HTTP/1.1\"".toList, ⟨body.toList, none⟩⟩

/-- The default path of the service-account token. -/
def defaultSaPath : String := "/var/run/secrets/kubernetes.io/serviceaccount/token"

/-- The role is `demo`, the token file holds a JWT followed by a newline, and
the peer answers 200 with the client token `abc123`. -/
def worldOk : World :=
  World.sample [("VAULT_ROLE", "demo")] [(defaultSaPath, " eyJh.eyJz.c2ln\n", 0o644)]
    (answer 200 "\x7b\"auth\":\x7b\"client_token\":\"abc123\"\x7d\x7d") .none

/-- As `worldOk`, but the peer answers 403 and still sends a client token. -/
def worldForbidden : World :=
  World.sample [("VAULT_ROLE", "demo")] [(defaultSaPath, " eyJh.eyJz.c2ln\n", 0o644)]
    (answer 403 "\x7b\"auth\":\x7b\"client_token\":\"abc123\"\x7d\x7d") .none

/-- As `worldOk`, but there is no token file. -/
def worldNoTokenFile : World :=
  World.sample [("VAULT_ROLE", "demo")] []
    (answer 200 "\x7b\"auth\":\x7b\"client_token\":\"abc123\"\x7d\x7d") .none

/-- As `worldOk`, but `VAULT_ROLE` is not set. -/
def worldNoRole : World :=
  World.sample [("VAULT_ADDR", "https://vault:8200")] [(defaultSaPath, " eyJh.eyJz.c2ln\n", 0o644)]
    (answer 200 "\x7b\"auth\":\x7b\"client_token\":\"abc123\"\x7d\x7d") .none

/-- As `worldOk`, but `VAULT_ADDR` ends in a newline. -/
def worldBadAddr : World :=
  World.sample [("VAULT_ROLE", "demo"), ("VAULT_ADDR", "https://vault:8200\n")]
    [(defaultSaPath, " eyJh.eyJz.c2ln\n", 0o644)]
    (answer 200 "\x7b\"auth\":\x7b\"client_token\":\"abc123\"\x7d\x7d") .none

/-- As `worldOk`, but a token file readable by group and others is already at
the destination. -/
def worldExistingDest : World :=
  World.sample [("VAULT_ROLE", "demo")]
    [(defaultSaPath, " eyJh.eyJz.c2ln\n", 0o644), ("/.vault-token", "old-token", 0o644)]
    (answer 200 "\x7b\"auth\":\x7b\"client_token\":\"abc123\"\x7d\x7d") .none

/-- As `worldExistingDest`, but the disk is full: the destination is opened
(and truncated), then the write fails. -/
def worldDiskFull : World :=
  World.sample [("VAULT_ROLE", "demo")]
    [(defaultSaPath, " eyJh.eyJz.c2ln\n", 0o644), ("/.vault-token", "old-token", 0o644)]
    (answer 200 "\x7b\"auth\":\x7b\"client_token\":\"abc123\"\x7d\x7d")
    (.writeFails 0 ⟨"write /.vault-token: no space left on device".toList⟩)

/-- As `worldOk`, but the token file holds only white space. -/
def worldBlankToken : World :=
  World.sample [("VAULT_ROLE", "demo")] [(defaultSaPath, " \n", 0o644)]
    (answer 200 "\x7b\"auth\":\x7b\"client_token\":\"abc123\"\x7d\x7d") .none

/-! ## The configuration `main` resolves -/

/-- The package variable `vaultAddr` as `main` sets it. -/
def vaultAddrOf (w : World) : GoString := getenvOr w "VAULT_ADDR" "https://127.0.0.1:8200"

/-- The package variable `vaultK8SMountPath` as `main` sets it. -/
def mountPathOf (w : World) : GoString := getenvOr w "VAULT_K8S_MOUNT_PATH" "kubernetes"

/-- The variable `role` of `main`. -/
def roleOf (w : World) : GoString := Getenv w "VAULT_ROLE"

/-- The variable `dest` of `main`. -/
def destOf (w : World) : GoString := getenvOr w "TOKEN_DEST_PATH" "/.vault-token"

/-- The variable `saPath` of `main`. -/
def saPathOf (w : World) : GoString :=
  getenvOr w "SERVICE_ACCOUNT_PATH" "/var/run/secrets/kubernetes.io/serviceaccount/token"

/-! ## Reading a path of a JSON value, as plain JSON -/

/-- The value of the first member of an object with exactly the given name. -/
def JSON.member (name : String) : JSON → Option JSON
  | .object ms => (ms.find? fun m => m.1 == name.toList).map fun m => m.2
  | _ => none

/-- The string found at `auth.client_token`, with exact member names. -/
def clientTokenOf (v : JSON) : Option GoString :=
  match (v.member "auth").bind (JSON.member "client_token") with
  | some (.string t) => some t
  | _ => none

/-- As `worldOk`, but the peer answers 200 with `auth.client_token` followed by
a member `Client_Token`. -/
def worldFoldedKey : World :=
  World.sample [("VAULT_ROLE", "demo")] [(defaultSaPath, " eyJh.eyJz.c2ln\n", 0o644)]
    (answer 200 "\x7b\"auth\":\x7b\"client_token\":\"abc123\",\"Client_Token\":\"zzz\"\x7d\x7d")
    .none

/-- As `worldOk`, but the peer answers 200 with an `auth` object without
`client_token`. -/
def worldEmptyAuth : World :=
  World.sample [("VAULT_ROLE", "demo")] [(defaultSaPath, " eyJh.eyJz.c2ln\n", 0o644)]
    (answer 200 "\x7b\"auth\":\x7b\x7d\x7d") .none

/-- A character that may stand as it is inside a JSON string literal: not the
double quote, not the backslash, not a control character below U+0020. -/
def isPlainChar (c : Char) : Bool :=
  c != '"' && c != '\\' && decide (0x20 ≤ c.toNat)

/-! ## Raw bytes and UTF-8 -/

/-- A Go string as the bytes it is made of (each below 256).  The environment
and the token file deliver bytes; they need not be valid UTF-8. -/
abbrev Bytes := List Nat

/-- The function `utf8.EncodeRune` on a code point: one to four bytes
(`t2 | r>>6` is written `0xC0 + r / 64`, `tx | r&maskx` is `0x80 + r % 64`, and
so on). -/
def encodeRune (c : Char) : Bytes :=
  let r := c.toNat
  if r ≤ 0x7F then [r]
  else if r ≤ 0x7FF then [0xC0 + r / 64, 0x80 + r % 64]
  else if r ≤ 0xFFFF then [0xE0 + r / 4096, 0x80 + r / 64 % 64, 0x80 + r % 64]
  else [0xF0 + r / 262144, 0x80 + r / 4096 % 64, 0x80 + r / 64 % 64, 0x80 + r % 64]

/-- The bytes of a text: its UTF-8 encoding. -/
def utf8Encode : GoString → Bytes
  | [] => []
  | c :: cs => encodeRune c ++ utf8Encode cs

/-- The function `utf8.DecodeRune`: the code point at the head of the bytes and
the number of bytes it takes.  A byte that starts no valid sequence gives
U+FFFD and width 1.  The first byte fixes the length and the range accepted
for the second byte (table `first` and `acceptRanges` of `unicode/utf8`);
`p0 & mask` is written `p0 % 32`, `p0 % 16`, `p0 % 8`, and `b & maskx` is
`b % 64`. -/
def decodeRune (p : Bytes) : Nat × Nat :=
  match p with
  | [] => (0xFFFD, 0)
  | p0 :: t =>
    if p0 < 0x80 then (p0, 1)
    else if p0 < 0xC2 ∨ 0xF4 < p0 then (0xFFFD, 1)
    else
      let sz := if p0 < 0xE0 then 2 else if p0 < 0xF0 then 3 else 4
      let lo := if p0 = 0xE0 then 0xA0 else if p0 = 0xF0 then 0x90 else 0x80
      let hi := if p0 = 0xED then 0x9F else if p0 = 0xF4 then 0x8F else 0xBF
      if t.length + 1 < sz then (0xFFFD, 1)
      else
        match t with
        | [] => (0xFFFD, 1)
        | b1 :: t1 =>
          if b1 < lo ∨ hi < b1 then (0xFFFD, 1)
          else if sz ≤ 2 then (p0 % 32 * 64 + b1 % 64, 2)
          else
            match t1 with
            | [] => (0xFFFD, 1)
            | b2 :: t2 =>
              if b2 < 0x80 ∨ 0xBF < b2 then (0xFFFD, 1)
              else if sz ≤ 3 then (p0 % 16 * 4096 + b1 % 64 * 64 + b2 % 64, 3)
              else
                match t2 with
                | [] => (0xFFFD, 1)
                | b3 :: _ =>
                  if b3 < 0x80 ∨ 0xBF < b3 then (0xFFFD, 1)
                  else (p0 % 8 * 262144 + b1 % 64 * 4096 + b2 % 64 * 64 + b3 % 64, 4)

/-- Read bytes rune by rune, as `encoding/json` does with the bytes of a
string: every valid sequence gives its code point, every other byte gives
U+FFFD.  The first argument bounds the number of runes; the number of bytes
is enough, since every rune takes at least one byte. -/
def decodeRunesAux : Nat → Bytes → GoString
  | 0, _ => []
  | _ + 1, [] => []
  | fuel + 1, b :: bs =>
    Char.ofNat (decodeRune (b :: bs)).1 ::
      decodeRunesAux fuel ((b :: bs).drop (decodeRune (b :: bs)).2)

/-- The text `encoding/json` reads from bytes. -/
def decodeRunes (p : Bytes) : GoString :=
  decodeRunesAux p.length p

/-- The request body of line 84 on raw bytes: `%s` inserts the bytes of the
role and of the token between the bytes of the format. -/
def requestBodyBytes (role jwt : Bytes) : Bytes :=
  utf8Encode "\x7b\"role\": \"".toList ++ role ++ utf8Encode "\", \"jwt\": \"".toList ++ jwt ++
    utf8Encode "\"\x7d".toList

/-- The string value of the first member of an object with the given name. -/
def JSON.stringMember (name : String) (v : JSON) : Option GoString :=
  match v.member name with
  | some (.string t) => some t
  | _ => none

/-! ## Lemmas on `bytes.TrimSpace` -/

theorem trimLeftSpace_split (s : GoString) :
    ∃ lead, s = lead ++ trimLeftSpace s ∧ ∀ c ∈ lead, isSpace c = true := by
  induction s with
  | nil => exact ⟨[], rfl, by simp⟩
  | cons c cs ih =>
    by_cases h : isSpace c = true
    · obtain ⟨l, hl, hs⟩ := ih
      refine ⟨c :: l, ?_, ?_⟩
      · simp only [trimLeftSpace, h, if_true, List.cons_append]
        exact congrArg _ hl
      · intro x hx
        rcases List.mem_cons.mp hx with rfl | hx
        · exact h
        · exact hs x hx
    · exact ⟨[], by simp [trimLeftSpace, h], by simp⟩

theorem trimLeftSpace_head (s : GoString) (c : Char)
    (h : (trimLeftSpace s).head? = some c) : isSpace c = false := by
  induction s with
  | nil => simp [trimLeftSpace] at h
  | cons d ds ih =>
    by_cases hd : isSpace d = true
    · simp only [trimLeftSpace, hd, if_true] at h
      exact ih h
    · simp only [trimLeftSpace, hd] at h
      simp at h
      subst h
      simpa using hd

theorem trimRightSpace_split (s : GoString) :
    ∃ trail, s = trimRightSpace s ++ trail ∧ ∀ c ∈ trail, isSpace c = true := by
  induction s with
  | nil => exact ⟨[], rfl, by simp⟩
  | cons c cs ih =>
    obtain ⟨t, ht, hs⟩ := ih
    cases hr : trimRightSpace cs with
    | nil =>
      rw [hr] at ht
      by_cases h : isSpace c = true
      · refine ⟨c :: t, ?_, ?_⟩
        · simp [trimRightSpace, hr, h]
          simpa using ht
        · intro x hx
          rcases List.mem_cons.mp hx with rfl | hx
          · exact h
          · exact hs x hx
      · refine ⟨t, ?_, hs⟩
        simp [trimRightSpace, hr, h]
        simpa using ht
    | cons d ds =>
      refine ⟨t, ?_, hs⟩
      rw [hr] at ht
      simp only [trimRightSpace, hr, List.cons_append]
      exact congrArg _ ht

theorem trimRightSpace_getLast (s : GoString) (c : Char)
    (h : (trimRightSpace s).getLast? = some c) : isSpace c = false := by
  induction s with
  | nil => simp [trimRightSpace] at h
  | cons d ds ih =>
    cases hr : trimRightSpace ds with
    | nil =>
      by_cases hd : isSpace d = true
      · simp [trimRightSpace, hr, hd] at h
      · simp [trimRightSpace, hr, hd] at h
        subst h
        simpa using hd
    | cons e es =>
      simp only [trimRightSpace, hr] at h
      rw [hr] at ih
      rw [List.getLast?_cons_cons] at h
      exact ih h

theorem trimRightSpace_head (s : GoString) (c : Char)
    (h : (trimRightSpace s).head? = some c) : s.head? = some c := by
  cases s with
  | nil => simp [trimRightSpace] at h
  | cons d ds =>
    cases hr : trimRightSpace ds with
    | nil =>
      by_cases hd : isSpace d = true
      · simp [trimRightSpace, hr, hd] at h
      · simp [trimRightSpace, hr, hd] at h
        simp [h]
    | cons e es =>
      simp only [trimRightSpace, hr] at h
      simpa using h

theorem trimLeftSpace_fixed (s : GoString)
    (h : ∀ c, s.head? = some c → isSpace c = false) : trimLeftSpace s = s := by
  cases s with
  | nil => rfl
  | cons d ds =>
    have := h d rfl
    simp [trimLeftSpace, this]

theorem trimRightSpace_fixed (s : GoString)
    (h : ∀ c, s.getLast? = some c → isSpace c = false) : trimRightSpace s = s := by
  induction s with
  | nil => rfl
  | cons d ds ih =>
    cases ds with
    | nil =>
      have := h d rfl
      simp [trimRightSpace, this]
    | cons e es =>
      have ih1 := ih (fun c hc => h c (by rw [List.getLast?_cons_cons]; exact hc))
      simp only [trimRightSpace] at ih1 ⊢
      rw [ih1]

theorem TrimSpace_head (s : GoString) (c : Char)
    (h : (TrimSpace s).head? = some c) : isSpace c = false :=
  trimLeftSpace_head s c (trimRightSpace_head _ c h)

theorem TrimSpace_getLast (s : GoString) (c : Char)
    (h : (TrimSpace s).getLast? = some c) : isSpace c = false :=
  trimRightSpace_getLast _ c h

theorem TrimSpace_idem (s : GoString) : TrimSpace (TrimSpace s) = TrimSpace s := by
  have h1 : trimLeftSpace (TrimSpace s) = TrimSpace s :=
    trimLeftSpace_fixed _ (TrimSpace_head s)
  unfold TrimSpace at h1 ⊢
  rw [h1]
  exact trimRightSpace_fixed _ (trimRightSpace_getLast _)

theorem TrimSpace_split (s : GoString) :
    ∃ lead trail, s = lead ++ TrimSpace s ++ trail ∧
      (∀ c ∈ lead, isSpace c = true) ∧ (∀ c ∈ trail, isSpace c = true) := by
  obtain ⟨l, hl, hls⟩ := trimLeftSpace_split s
  obtain ⟨t, ht, hts⟩ := trimRightSpace_split (trimLeftSpace s)
  refine ⟨l, t, ?_, hls, hts⟩
  unfold TrimSpace
  rw [List.append_assoc, ← ht]
  exact hl

/-! ## The scanner consumes its input, and the fuel of `parseJSON` is enough -/

theorem skipSpace_length (s : GoString) : (skipSpace s).length ≤ s.length := by
  induction s with
  | nil => simp [skipSpace]
  | cons c cs ih =>
    unfold skipSpace
    split
    · exact Nat.le_succ_of_le ih
    · exact Nat.le_refl _

theorem scanString_length (st : StrState) (s raw rest : GoString)
    (h : scanString st s = some (raw, rest)) : rest.length < s.length := by
  induction s generalizing st raw with
  | nil => cases st <;> simp [scanString] at h
  | cons c cs ih =>
    have key : ∀ st1, (scanString st1 cs).map (fun r => (c :: r.1, r.2)) = some (raw, rest) →
        rest.length < (c :: cs).length := by
      intro st1 h1
      cases hs : scanString st1 cs with
      | none => simp [hs] at h1
      | some p =>
        obtain ⟨raw1, rest1⟩ := p
        simp [hs] at h1
        have := ih st1 raw1 (by rw [hs, h1.2])
        simp
        omega
    cases st with
    | inString =>
      simp only [scanString] at h
      split at h
      · simp at h
        simp [h.2]
      · split at h
        · exact key _ h
        · split at h
          · simp at h
          · exact key _ h
    | esc =>
      simp only [scanString] at h
      split at h
      · exact key _ h
      · split at h
        · exact key _ h
        · simp at h
    | escU owed =>
      simp only [scanString] at h
      split at h
      · exact key _ h
      · simp at h

theorem spanDigits_length (s : GoString) : (spanDigits s).2.length ≤ s.length := by
  induction s with
  | nil => simp [spanDigits]
  | cons c cs ih =>
    unfold spanDigits
    split
    · exact Nat.le_succ_of_le ih
    · exact Nat.le_refl _

theorem scanExponent_length (s x r : GoString) (h : scanExponent s = some (x, r)) :
    r.length ≤ s.length := by
  unfold scanExponent at h
  split at h
  · rename_i e t
    split at h
    · split at h
      · rename_i g t1
        split at h
        · have := spanDigits_length t1
          split at h
          · simp at h
          · rename_i ds r1 hne hsp
            simp at h
            rw [hsp] at this
            simp at this ⊢
            rw [← h.2]
            omega
        · have := spanDigits_length (g :: t1)
          split at h
          · simp at h
          · rename_i ds r1 hne hsp
            simp at h
            rw [hsp] at this
            simp at this ⊢
            rw [← h.2]
            omega
      · simp at h
    · simp at h
      rw [← h.2]
  · simp at h
    rw [← h.2]

theorem scanFraction_length (s x r : GoString) (h : scanFraction s = some (x, r)) :
    r.length ≤ s.length := by
  unfold scanFraction at h
  split at h
  · rename_i d t
    split at h
    · have := spanDigits_length t
      split at h
      · simp at h
      · rename_i ds r1 hne hsp
        rw [hsp] at this
        cases he : scanExponent r1 with
        | none => simp [he] at h
        | some p =>
          obtain ⟨x1, r2⟩ := p
          simp [he] at h
          have h2 := scanExponent_length r1 x1 r2 he
          simp at this ⊢
          rw [← h.2]
          omega
    · exact scanExponent_length _ _ _ h
  · simp at h
    rw [← h.2]

theorem scanUnsigned_length (s x r : GoString) (h : scanUnsigned s = some (x, r)) :
    r.length < s.length := by
  unfold scanUnsigned at h
  split at h
  · rename_i c t
    split at h
    · cases hf : scanFraction t with
      | none => simp [hf] at h
      | some p =>
        obtain ⟨x1, r1⟩ := p
        simp [hf] at h
        have := scanFraction_length t x1 r1 hf
        simp
        rw [← h.2]
        omega
    · split at h
      · cases hf : scanFraction (spanDigits t).2 with
        | none => simp [hf] at h
        | some p =>
          obtain ⟨x1, r1⟩ := p
          simp [hf] at h
          have h1 := scanFraction_length _ x1 r1 hf
          have h2 := spanDigits_length t
          simp
          rw [← h.2]
          omega
      · simp at h
  · simp at h

theorem scanNumber_length (s x r : GoString) (h : scanNumber s = some (x, r)) :
    r.length < s.length := by
  unfold scanNumber at h
  split at h
  · rename_i c t
    split at h
    · cases hu : scanUnsigned t with
      | none => simp [hu] at h
      | some p =>
        obtain ⟨x1, r1⟩ := p
        simp [hu] at h
        have := scanUnsigned_length t x1 r1 hu
        simp
        rw [← h.2]
        omega
    · exact scanUnsigned_length _ _ _ h
  · simp at h

theorem expectLit_length (l s r : GoString) (h : expectLit l s = some r) :
    r.length ≤ s.length := by
  induction l generalizing s with
  | nil =>
    simp [expectLit] at h
    rw [h]
  | cons a as ih =>
    cases s with
    | nil => simp [expectLit] at h
    | cons c cs =>
      simp only [expectLit] at h
      split at h
      · have := ih cs h
        simp
        omega
      · simp at h

theorem parseValue_fuel_step (k : Nat)
    (ihM : ∀ d s ms rest, parseMembers k d s = some (ms, rest) →
      rest.length < s.length ∧
        ∀ f, s.length - rest.length ≤ f → parseMembers f d s = some (ms, rest))
    (ihE : ∀ d s vs rest, parseElems k d s = some (vs, rest) →
      rest.length < s.length ∧
        ∀ f, s.length - rest.length ≤ f → parseElems f d s = some (vs, rest))
    (d : Nat) (s : GoString) (v : JSON) (rest : GoString)
    (h : parseValue (k + 1) d s = some (v, rest)) :
    rest.length < s.length ∧
      ∀ f, s.length - rest.length ≤ f → parseValue f d s = some (v, rest) := by
  rw [parseValue] at h
  cases hs : skipSpace s with
  | nil => simp [hs] at h
  | cons c cs =>
    have hlen := skipSpace_length s
    rw [hs] at hlen
    simp only [List.length_cons] at hlen
    simp only [hs] at h
    by_cases h1 : c = '\x7b'
    · subst h1
      simp only [if_true] at h
      by_cases hd : d < maxNestingDepth
      · simp only [hd, if_true] at h
        cases hs2 : skipSpace cs with
        | nil => simp [hs2] at h
        | cons d0 ds =>
          have hlen2 := skipSpace_length cs
          rw [hs2] at hlen2
          simp only [List.length_cons] at hlen2
          simp only [hs2] at h
          by_cases h2 : d0 = '\x7d'
          · subst h2
            simp only [if_true, Option.some.injEq, Prod.mk.injEq] at h
            obtain ⟨hv, hr⟩ := h
            subst hv hr
            refine ⟨by omega, fun f hf => ?_⟩
            obtain ⟨k', rfl⟩ : ∃ k', f = k' + 1 := ⟨f - 1, by omega⟩
            rw [parseValue]
            simp only [hs, if_true, hd, hs2]
          · simp only [h2, if_false] at h
            cases hm : parseMembers k (d + 1) (d0 :: ds) with
            | none => simp [hm] at h
            | some p =>
              obtain ⟨ms, r⟩ := p
              simp only [hm, Option.map_some', Option.some.injEq, Prod.mk.injEq] at h
              obtain ⟨hv, hr⟩ := h
              subst hv hr
              obtain ⟨hl, hfuel⟩ := ihM (d + 1) (d0 :: ds) ms r hm
              simp only [List.length_cons] at hl hfuel
              refine ⟨by omega, fun f hf => ?_⟩
              obtain ⟨k', rfl⟩ : ∃ k', f = k' + 1 := ⟨f - 1, by omega⟩
              rw [parseValue]
              simp only [hs, if_true, hd, hs2, h2, if_false]
              rw [hfuel k' (by omega)]
              rfl
      · simp [hd] at h
    · simp only [h1, if_false] at h
      by_cases h3 : c = '['
      · subst h3
        simp only [if_true] at h
        by_cases hd : d < maxNestingDepth
        · simp only [hd, if_true] at h
          cases hs2 : skipSpace cs with
          | nil => simp [hs2] at h
          | cons d0 ds =>
            have hlen2 := skipSpace_length cs
            rw [hs2] at hlen2
            simp only [List.length_cons] at hlen2
            simp only [hs2] at h
            by_cases h2 : d0 = ']'
            · subst h2
              simp only [if_true, Option.some.injEq, Prod.mk.injEq] at h
              obtain ⟨hv, hr⟩ := h
              subst hv hr
              refine ⟨by omega, fun f hf => ?_⟩
              obtain ⟨k', rfl⟩ : ∃ k', f = k' + 1 := ⟨f - 1, by omega⟩
              rw [parseValue]
              simp only [hs, h1, if_false, if_true, hd, hs2]
            · simp only [h2, if_false] at h
              cases hm : parseElems k (d + 1) (d0 :: ds) with
              | none => simp [hm] at h
              | some p =>
                obtain ⟨vs, r⟩ := p
                simp only [hm, Option.map_some', Option.some.injEq, Prod.mk.injEq] at h
                obtain ⟨hv, hr⟩ := h
                subst hv hr
                obtain ⟨hl, hfuel⟩ := ihE (d + 1) (d0 :: ds) vs r hm
                simp only [List.length_cons] at hl hfuel
                refine ⟨by omega, fun f hf => ?_⟩
                obtain ⟨k', rfl⟩ : ∃ k', f = k' + 1 := ⟨f - 1, by omega⟩
                rw [parseValue]
                simp only [hs, h1, if_true, hd, hs2, h2, if_false]
                rw [hfuel k' (by omega)]
                rfl
        · simp [hd] at h
      · simp only [h3, if_false] at h
        have scalar : rest.length < s.length →
            rest.length < s.length ∧
              ∀ f, s.length - rest.length ≤ f → parseValue f d s = some (v, rest) := by
          intro hl
          refine ⟨hl, fun f hf => ?_⟩
          obtain ⟨k', rfl⟩ : ∃ k', f = k' + 1 := ⟨f - 1, by omega⟩
          rw [parseValue]
          simp only [hs, h1, h3, if_false]
          exact h
        apply scalar
        by_cases h4 : c = '"'
        · simp only [h4, if_true] at h
          cases hq : scanString .inString cs with
          | none => simp [hq] at h
          | some p =>
            obtain ⟨raw, r⟩ := p
            simp only [hq, Option.map_some', Option.some.injEq, Prod.mk.injEq] at h
            have := scanString_length _ _ _ _ hq
            rw [← h.2]
            omega
        · simp only [h4, if_false] at h
          by_cases h5 : c = 't'
          · simp only [h5, if_true] at h
            simp at h
            have := expectLit_length _ _ _ h.1
            omega
          · simp only [h5, if_false] at h
            by_cases h6 : c = 'f'
            · simp only [h6, if_true] at h
              simp at h
              have := expectLit_length _ _ _ h.1
              omega
            · simp only [h6, if_false] at h
              by_cases h7 : c = 'n'
              · simp only [h7, if_true] at h
                simp at h
                have := expectLit_length _ _ _ h.1
                omega
              · simp only [h7, if_false] at h
                cases hq : scanNumber (c :: cs) with
                | none => simp [hq] at h
                | some p =>
                  obtain ⟨lit, r⟩ := p
                  simp only [hq, Option.map_some', Option.some.injEq, Prod.mk.injEq] at h
                  have := scanNumber_length _ _ _ hq
                  simp only [List.length_cons] at this
                  rw [← h.2]
                  omega

theorem parseMembers_fuel_step (k : Nat)
    (ihV : ∀ d s v rest, parseValue k d s = some (v, rest) →
      rest.length < s.length ∧
        ∀ f, s.length - rest.length ≤ f → parseValue f d s = some (v, rest))
    (ihM : ∀ d s ms rest, parseMembers k d s = some (ms, rest) →
      rest.length < s.length ∧
        ∀ f, s.length - rest.length ≤ f → parseMembers f d s = some (ms, rest))
    (d : Nat) (s : GoString) (ms : List (GoString × JSON)) (rest : GoString)
    (h : parseMembers (k + 1) d s = some (ms, rest)) :
    rest.length < s.length ∧
      ∀ f, s.length - rest.length ≤ f → parseMembers f d s = some (ms, rest) := by
  rw [parseMembers] at h
  cases hs : skipSpace s with
  | nil => simp [hs] at h
  | cons q cs =>
    have hlen := skipSpace_length s
    rw [hs] at hlen
    simp only [List.length_cons] at hlen
    simp only [hs] at h
    by_cases h1 : q = '"'
    · subst h1
      simp only [if_true] at h
      cases hq : scanString .inString cs with
      | none => simp [hq] at h
      | some p =>
        obtain ⟨raw, r1⟩ := p
        have hl1 := scanString_length _ _ _ _ hq
        simp only [hq] at h
        cases hs1 : skipSpace r1 with
        | nil => simp [hs1] at h
        | cons colon r2 =>
          have hlen1 := skipSpace_length r1
          rw [hs1] at hlen1
          simp only [List.length_cons] at hlen1
          simp only [hs1] at h
          by_cases h2 : colon = ':'
          · subst h2
            simp only [if_true] at h
            cases hv : parseValue k d r2 with
            | none => simp [hv] at h
            | some pv =>
              obtain ⟨v, r3⟩ := pv
              obtain ⟨hl3, hfuelV⟩ := ihV d r2 v r3 hv
              simp only [hv] at h
              cases hs3 : skipSpace r3 with
              | nil => simp [hs3] at h
              | cons sep r4 =>
                have hlen3 := skipSpace_length r3
                rw [hs3] at hlen3
                simp only [List.length_cons] at hlen3
                simp only [hs3] at h
                by_cases h3 : sep = ','
                · subst h3
                  simp only [if_true] at h
                  cases hm : parseMembers k d r4 with
                  | none => simp [hm] at h
                  | some pm =>
                    obtain ⟨ms1, r5⟩ := pm
                    obtain ⟨hl5, hfuelM⟩ := ihM d r4 ms1 r5 hm
                    simp only [hm, Option.map_some', Option.some.injEq, Prod.mk.injEq] at h
                    obtain ⟨hms, hr⟩ := h
                    subst hms hr
                    refine ⟨by omega, fun f hf => ?_⟩
                    obtain ⟨k', rfl⟩ : ∃ k', f = k' + 1 := ⟨f - 1, by omega⟩
                    rw [parseMembers]
                    simp only [hs, if_true, hq, hs1, hs3]
                    rw [hfuelV k' (by omega)]
                    simp only [hs3, if_true]
                    rw [hfuelM k' (by omega)]
                    rfl
                · simp only [h3, if_false] at h
                  by_cases h4 : sep = '\x7d'
                  · subst h4
                    simp only [if_true, Option.some.injEq, Prod.mk.injEq] at h
                    obtain ⟨hms, hr⟩ := h
                    subst hms hr
                    refine ⟨by omega, fun f hf => ?_⟩
                    obtain ⟨k', rfl⟩ : ∃ k', f = k' + 1 := ⟨f - 1, by omega⟩
                    rw [parseMembers]
                    simp only [hs, if_true, hq, hs1]
                    rw [hfuelV k' (by omega)]
                    simp only [hs3, h3, if_false, if_true]
                  · simp [h4] at h
          · simp [h2] at h
    · simp [h1] at h

theorem parseElems_fuel_step (k : Nat)
    (ihV : ∀ d s v rest, parseValue k d s = some (v, rest) →
      rest.length < s.length ∧
        ∀ f, s.length - rest.length ≤ f → parseValue f d s = some (v, rest))
    (ihE : ∀ d s vs rest, parseElems k d s = some (vs, rest) →
      rest.length < s.length ∧
        ∀ f, s.length - rest.length ≤ f → parseElems f d s = some (vs, rest))
    (d : Nat) (s : GoString) (vs : List JSON) (rest : GoString)
    (h : parseElems (k + 1) d s = some (vs, rest)) :
    rest.length < s.length ∧
      ∀ f, s.length - rest.length ≤ f → parseElems f d s = some (vs, rest) := by
  rw [parseElems] at h
  cases hv : parseValue k d s with
  | none => simp [hv] at h
  | some pv =>
    obtain ⟨v, r1⟩ := pv
    obtain ⟨hl1, hfuelV⟩ := ihV d s v r1 hv
    simp only [hv] at h
    cases hs1 : skipSpace r1 with
    | nil => simp [hs1] at h
    | cons sep r2 =>
      have hlen1 := skipSpace_length r1
      rw [hs1] at hlen1
      simp only [List.length_cons] at hlen1
      simp only [hs1] at h
      by_cases h3 : sep = ','
      · subst h3
        simp only [if_true] at h
        cases hm : parseElems k d r2 with
        | none => simp [hm] at h
        | some pm =>
          obtain ⟨vs1, r3⟩ := pm
          obtain ⟨hl3, hfuelE⟩ := ihE d r2 vs1 r3 hm
          simp only [hm, Option.map_some', Option.some.injEq, Prod.mk.injEq] at h
          obtain ⟨hvs, hr⟩ := h
          subst hvs hr
          refine ⟨by omega, fun f hf => ?_⟩
          obtain ⟨k', rfl⟩ : ∃ k', f = k' + 1 := ⟨f - 1, by omega⟩
          rw [parseElems, hfuelV k' (by omega)]
          simp only [hs1, if_true]
          rw [hfuelE k' (by omega)]
          rfl
      · simp only [h3, if_false] at h
        by_cases h4 : sep = ']'
        · subst h4
          simp only [if_true, Option.some.injEq, Prod.mk.injEq] at h
          obtain ⟨hvs, hr⟩ := h
          subst hvs hr
          refine ⟨by omega, fun f hf => ?_⟩
          obtain ⟨k', rfl⟩ : ∃ k', f = k' + 1 := ⟨f - 1, by omega⟩
          rw [parseElems, hfuelV k' (by omega)]
          simp only [hs1, h3, if_false, if_true]
        · simp [h4] at h

theorem parse_fuel (k : Nat) :
    (∀ d s v rest, parseValue k d s = some (v, rest) →
      rest.length < s.length ∧
        ∀ f, s.length - rest.length ≤ f → parseValue f d s = some (v, rest)) ∧
    (∀ d s ms rest, parseMembers k d s = some (ms, rest) →
      rest.length < s.length ∧
        ∀ f, s.length - rest.length ≤ f → parseMembers f d s = some (ms, rest)) ∧
    (∀ d s vs rest, parseElems k d s = some (vs, rest) →
      rest.length < s.length ∧
        ∀ f, s.length - rest.length ≤ f → parseElems f d s = some (vs, rest)) := by
  induction k with
  | zero =>
    refine ⟨?_, ?_, ?_⟩
    · intro d s v rest h
      rw [parseValue] at h
      simp at h
    · intro d s ms rest h
      rw [parseMembers] at h
      simp at h
    · intro d s vs rest h
      rw [parseElems] at h
      simp at h
  | succ k ih =>
    obtain ⟨ihV, ihM, ihE⟩ := ih
    exact ⟨parseValue_fuel_step k ihM ihE, parseMembers_fuel_step k ihV ihM,
      parseElems_fuel_step k ihV ihE⟩

/-- The fuel of `parseJSON` is enough: whenever some amount of fuel lets
`parseValue` read a value at the head of a text, `parseJSON` reads the same
value and leaves the same rest. -/
theorem parseJSON_of_parseValue (fuel : Nat) (s : GoString) (v : JSON) (rest : GoString)
    (h : parseValue fuel 0 s = some (v, rest)) : parseJSON s = some (v, rest) := by
  obtain ⟨-, hf⟩ := (parse_fuel fuel).1 0 s v rest h
  exact hf (s.length + 1) (by omega)

/-! ## Scanning text without quotes, backslashes and control characters -/

theorem isPlainChar_iff (c : Char) :
    isPlainChar c = true ↔ c ≠ '"' ∧ c ≠ '\\' ∧ ¬ c.toNat < 0x20 := by
  simp [isPlainChar, and_assoc]

theorem scanString_plain (s rest : GoString) (h : ∀ c ∈ s, isPlainChar c = true) :
    scanString .inString (s ++ '"' :: rest) = some (s, rest) := by
  induction s with
  | nil => simp [scanString]
  | cons c cs ih =>
    obtain ⟨h1, h2, h3⟩ := (isPlainChar_iff c).mp (h c (List.mem_cons_self _ _))
    have ih1 := ih fun x hx => h x (List.mem_cons_of_mem _ hx)
    simp only [List.cons_append, scanString, h1, h2, h3, if_false, List.append_eq, ih1,
      Option.map_some']

theorem unquote_plain (s : GoString) (n : Nat) (hn : s.length ≤ n)
    (h : ∀ c ∈ s, isPlainChar c = true) : unquote n s = s := by
  induction s generalizing n with
  | nil => cases n <;> rfl
  | cons c cs ih =>
    obtain ⟨-, h2, -⟩ := (isPlainChar_iff c).mp (h c (List.mem_cons_self _ _))
    cases n with
    | zero => simp at hn
    | succ n =>
      have ih1 := ih n (by simpa using hn) fun x hx => h x (List.mem_cons_of_mem _ hx)
      simp only [unquote, h2, if_false, ih1]

theorem parseValue_plain_string (fuel depth : Nat) (s rest : GoString)
    (h : ∀ c ∈ s, isPlainChar c = true) :
    parseValue (fuel + 1) depth (' ' :: '"' :: (s ++ '"' :: rest)) = some (.string s, rest) := by
  have hs : skipSpace (' ' :: '"' :: (s ++ '"' :: rest)) = '"' :: (s ++ '"' :: rest) := by
    simp [skipSpace, isJSONSpace]
  simp only [parseValue, hs, scanString_plain s rest h, Option.map_some',
    unquote_plain s s.length (Nat.le_refl _) h]
  simp

theorem requestBody_cons (role jwt : GoString) :
    requestBody role jwt =
      '\x7b' :: '"' :: 'r' :: 'o' :: 'l' :: 'e' :: '"' :: ':' :: ' ' :: '"' ::
        (role ++ '"' :: ',' :: ' ' :: '"' :: 'j' :: 'w' :: 't' :: '"' :: ':' :: ' ' :: '"' ::
          (jwt ++ '"' :: ['\x7d'])) := by
  simp [requestBody]

theorem parseMembers_jwt (fuel depth : Nat) (jwt rest : GoString)
    (h : ∀ c ∈ jwt, isPlainChar c = true) :
    parseMembers (fuel + 2) depth
        (' ' :: '"' :: 'j' :: 'w' :: 't' :: '"' :: ':' :: ' ' :: '"' ::
          (jwt ++ '"' :: '\x7d' :: rest))
      = some ([("jwt".toList, .string jwt)], rest) := by
  have hk : scanString .inString ('j' :: 'w' :: 't' :: '"' :: ':' :: ' ' :: '"' ::
      (jwt ++ '"' :: '\x7d' :: rest))
      = some (['j', 'w', 't'], ':' :: ' ' :: '"' :: (jwt ++ '"' :: '\x7d' :: rest)) :=
    scanString_plain ['j', 'w', 't'] _ (by decide)
  have hu : unquote 3 ['j', 'w', 't'] = ['j', 'w', 't'] := by decide
  rw [parseMembers]
  simp [skipSpace, isJSONSpace, hk, hu, parseValue_plain_string fuel depth jwt _ h]

theorem parseMembers_role_jwt (fuel depth : Nat) (role jwt rest : GoString)
    (hr : ∀ c ∈ role, isPlainChar c = true) (hj : ∀ c ∈ jwt, isPlainChar c = true) :
    parseMembers (fuel + 3) depth
        ('"' :: 'r' :: 'o' :: 'l' :: 'e' :: '"' :: ':' :: ' ' :: '"' ::
          (role ++ '"' :: ',' :: ' ' :: '"' :: 'j' :: 'w' :: 't' :: '"' :: ':' :: ' ' :: '"' ::
            (jwt ++ '"' :: '\x7d' :: rest)))
      = some ([("role".toList, .string role), ("jwt".toList, .string jwt)], rest) := by
  have hk : scanString .inString ('r' :: 'o' :: 'l' :: 'e' :: '"' :: ':' :: ' ' :: '"' ::
      (role ++ '"' :: ',' :: ' ' :: '"' :: 'j' :: 'w' :: 't' :: '"' :: ':' :: ' ' :: '"' ::
        (jwt ++ '"' :: '\x7d' :: rest)))
      = some (['r', 'o', 'l', 'e'], ':' :: ' ' :: '"' ::
        (role ++ '"' :: ',' :: ' ' :: '"' :: 'j' :: 'w' :: 't' :: '"' :: ':' :: ' ' :: '"' ::
          (jwt ++ '"' :: '\x7d' :: rest))) :=
    scanString_plain ['r', 'o', 'l', 'e'] _ (by decide)
  have hu : unquote 4 ['r', 'o', 'l', 'e'] = ['r', 'o', 'l', 'e'] := by decide
  rw [parseMembers]
  simp [skipSpace, isJSONSpace, hk, hu,
    parseValue_plain_string (fuel + 1) depth role _ hr, parseMembers_jwt fuel depth jwt rest hj]

theorem parseValue_requestBody (fuel : Nat) (role jwt : GoString)
    (hr : ∀ c ∈ role, isPlainChar c = true) (hj : ∀ c ∈ jwt, isPlainChar c = true) :
    parseValue (fuel + 4) 0 (requestBody role jwt)
      = some (.object [("role".toList, .string role), ("jwt".toList, .string jwt)], []) := by
  rw [requestBody_cons]
  rw [parseValue]
  simp [skipSpace, isJSONSpace, maxNestingDepth,
    parseMembers_role_jwt fuel 1 role jwt [] hr hj]

/-! ## Lemmas on decoding and on `authenticate` -/

theorem decodeAuthMembers_filter (ms : List (GoString × JSON)) (st : AuthField × Option GoError) :
    decodeAuthMembers ms st
      = decodeAuthMembers (ms.filter fun m => matchesField "client_token".toList m.1) st := by
  induction ms generalizing st with
  | nil => rfl
  | cons m ms ih =>
    obtain ⟨k, v⟩ := m
    by_cases hk : matchesField "client_token".toList k = true
    · rw [List.filter_cons_of_pos (by simpa using hk)]
      simp only [decodeAuthMembers, hk, if_true]
      exact ih _
    · rw [List.filter_cons_of_neg (by simpa using hk)]
      simp only [decodeAuthMembers, hk]
      exact ih _

theorem decodeLoginMembers_filter (ms : List (GoString × JSON)) (st : AuthField × Option GoError) :
    decodeLoginMembers ms st
      = decodeLoginMembers (ms.filter fun m => matchesField "auth".toList m.1) st := by
  induction ms generalizing st with
  | nil => rfl
  | cons m ms ih =>
    obtain ⟨k, v⟩ := m
    by_cases hk : matchesField "auth".toList k = true
    · rw [List.filter_cons_of_pos (by simpa using hk)]
      simp only [decodeLoginMembers, hk, if_true]
      exact ih _
    · rw [List.filter_cons_of_neg (by simpa using hk)]
      simp only [decodeLoginMembers, hk]
      exact ih _

theorem matches_of_filter_eq_singleton (name : GoString) (ms : List (GoString × JSON))
    (k : GoString) (v : JSON)
    (h : ms.filter (fun m => matchesField name m.1) = [(k, v)]) : matchesField name k = true := by
  have hm : (k, v) ∈ ms.filter (fun m => matchesField name m.1) := by rw [h]; simp
  exact (List.mem_filter.mp hm).2

/-- What `authenticate` does once the request is built and the peer has
answered 200: the outcome is decided by `Decode` alone. -/
theorem authenticate_ok_status (w : World) (vaultAddr mount role jwt : GoString)
    (req : Request) (resp : Response)
    (hreq : NewRequest w "POST".toList (loginAddr vaultAddr mount) (requestBody role jwt)
      = (some req, none))
    (hdo : w.roundTrip { req with
      header := headerSet req.header "Content-Type".toList "application/json".toList } = .ok resp)
    (hcode : resp.StatusCode = 200) :
    (authenticate w vaultAddr mount role jwt).outcome =
      match Decode resp.Body with
      | (_, some e) => .ret ([], some (errorsWrap e "failed to read body".toList))
      | (s, none) => .ret (s.Auth.ClientToken, none) := by
  unfold authenticate
  simp only [hreq, hdo, hcode, ne_eq, not_true_eq_false, if_false]
  split <;> simp_all

theorem authenticate_sent_body (w : World) (vaultAddr mount role jwt : GoString) (req : Request)
    (h : req ∈ (authenticate w vaultAddr mount role jwt).sent) :
    req.body = requestBody role jwt := by
  unfold authenticate NewRequest at h
  cases hu : urlParseError w (loginAddr vaultAddr mount) with
  | some e => simp [hu] at h
  | none =>
    simp only [hu] at h
    split at h
    · simp at h
      subst h
      rfl
    · split at h
      · simp at h
        subst h
        rfl
      · split at h
        · simp at h
          subst h
          rfl
        · simp at h
          subst h
          rfl

theorem saveToken_ok_data (w : World) (fs : FS) (token dest : GoString)
    (h : (saveToken w fs token dest).2 = none) :
    ((saveToken w fs token dest).1 dest).map File.data = some token := by
  unfold saveToken WriteFile at h ⊢
  cases hf : w.writeFault dest token with
  | openFails e => simp [hf] at h
  | writeFails n e => simp [hf] at h
  | closeFails e => simp [hf] at h
  | none => simp

theorem createMode_exact (u : Nat) (h : u &&& 0o600 = 0) :
    0o600 &&& (0o777 ^^^ (u % 0o1000)) = 0o600 := by
  have h1 : u % 0o1000 = u &&& 0o777 := (Nat.and_pow_two_sub_one_eq_mod u 9).symm
  have h2 : 0o600 &&& (u % 0o1000) = 0 := by
    rw [h1, Nat.and_comm u, ← Nat.and_assoc]
    have : (0o600 : Nat) &&& 0o777 = 0o600 := by decide
    rw [this, Nat.and_comm, h]
  rw [Nat.and_xor_distrib_left, h2]
  decide

theorem createMode_private (u : Nat) : (0o600 &&& (0o777 ^^^ u)) &&& 0o077 = 0 := by
  have h : (0o600 : Nat) &&& 0o077 = 0 := by decide
  rw [Nat.and_comm 0o600, Nat.and_assoc, h, Nat.and_zero]

/-! ## UTF-8: valid bytes are read back as the text they encode -/

theorem char_toNat_valid (c : Char) :
    c.toNat < 0xD800 ∨ (0xDFFF < c.toNat ∧ c.toNat < 0x110000) := c.valid

theorem decodeRune_two (n : Nat) (rest : Bytes) (h1 : 0x80 ≤ n) (h2 : n ≤ 0x7FF) :
    decodeRune ((0xC0 + n / 64) :: (0x80 + n % 64) :: rest) = (n, 2) := by
  have a1 : ¬ (0xC0 + n / 64 < 0x80) := by omega
  have a2 : ¬ (0xC0 + n / 64 < 0xC2) := by omega
  have a3 : ¬ (0xF4 < 0xC0 + n / 64) := by omega
  have a4 : 0xC0 + n / 64 < 0xE0 := by omega
  have a5 : ¬ (0xC0 + n / 64 = 0xE0) := by omega
  have a6 : ¬ (0xC0 + n / 64 = 0xF0) := by omega
  have a7 : ¬ (0xC0 + n / 64 = 0xED) := by omega
  have a8 : ¬ (0xC0 + n / 64 = 0xF4) := by omega
  have b1 : ¬ (0x80 + n % 64 < 0x80) := by omega
  have b2 : ¬ (0xBF < 0x80 + n % 64) := by omega
  have r : (0xC0 + n / 64) % 32 * 64 + (0x80 + n % 64) % 64 = n := by omega
  simp only [decodeRune, a1, a2, a3, a4, a5, a6, a7, a8, b1, b2, r, if_true, if_false, or_self,
    List.length_cons, Nat.le_refl]
  simp
theorem decodeRune_three (n : Nat) (rest : Bytes) (h1 : 0x800 ≤ n) (h2 : n ≤ 0xFFFF)
    (hs : n < 0xD800 ∨ 0xDFFF < n) :
    decodeRune ((0xE0 + n / 4096) :: (0x80 + n / 64 % 64) :: (0x80 + n % 64) :: rest)
      = (n, 3) := by
  have a1 : ¬ (0xE0 + n / 4096 < 0x80) := by omega
  have a2 : ¬ (0xE0 + n / 4096 < 0xC2) := by omega
  have a3 : ¬ (0xF4 < 0xE0 + n / 4096) := by omega
  have a4 : ¬ (0xE0 + n / 4096 < 0xE0) := by omega
  have a5 : 0xE0 + n / 4096 < 0xF0 := by omega
  have a6 : ¬ (0xE0 + n / 4096 = 0xF0) := by omega
  have a8 : ¬ (0xE0 + n / 4096 = 0xF4) := by omega
  have c1 : ¬ (0x80 + n % 64 < 0x80) := by omega
  have c2 : ¬ (0xBF < 0x80 + n % 64) := by omega
  have r : (0xE0 + n / 4096) % 16 * 4096 + (0x80 + n / 64 % 64) % 64 * 64 + (0x80 + n % 64) % 64
      = n := by omega
  simp only [decodeRune, a1, a2, a3, a4, a5, a6, a8, c1, c2, r, if_true, if_false, or_self,
    List.length_cons]
  split_ifs <;> first | omega | rfl

theorem decodeRune_four (n : Nat) (rest : Bytes) (h1 : 0x10000 ≤ n) (h2 : n < 0x110000) :
    decodeRune ((0xF0 + n / 262144) :: (0x80 + n / 4096 % 64) :: (0x80 + n / 64 % 64) ::
      (0x80 + n % 64) :: rest) = (n, 4) := by
  have a1 : ¬ (0xF0 + n / 262144 < 0x80) := by omega
  have a2 : ¬ (0xF0 + n / 262144 < 0xC2) := by omega
  have a3 : ¬ (0xF4 < 0xF0 + n / 262144) := by omega
  have a4 : ¬ (0xF0 + n / 262144 < 0xE0) := by omega
  have a5 : ¬ (0xF0 + n / 262144 < 0xF0) := by omega
  have a6 : ¬ (0xF0 + n / 262144 = 0xE0) := by omega
  have a7 : ¬ (0xF0 + n / 262144 = 0xED) := by omega
  have c1 : ¬ (0x80 + n / 64 % 64 < 0x80) := by omega
  have c2 : ¬ (0xBF < 0x80 + n / 64 % 64) := by omega
  have d1 : ¬ (0x80 + n % 64 < 0x80) := by omega
  have d2 : ¬ (0xBF < 0x80 + n % 64) := by omega
  have r : (0xF0 + n / 262144) % 8 * 262144 + (0x80 + n / 4096 % 64) % 64 * 4096 +
      (0x80 + n / 64 % 64) % 64 * 64 + (0x80 + n % 64) % 64 = n := by omega
  simp only [decodeRune, a1, a2, a3, a4, a5, a6, a7, c1, c2, d1, d2, r, if_true, if_false,
    or_self, List.length_cons]
  split_ifs <;> first | omega | rfl
theorem decodeRune_encodeRune (c : Char) (rest : Bytes) :
    decodeRune (encodeRune c ++ rest) = (c.toNat, (encodeRune c).length) := by
  have hv := char_toNat_valid c
  unfold encodeRune
  simp only
  generalize c.toNat = n at hv ⊢
  by_cases h1 : n ≤ 0x7F
  · have : n < 0x80 := by omega
    simp [h1, decodeRune, this]
  · by_cases h2 : n ≤ 0x7FF
    · simp only [h1, h2, if_false, if_true, List.cons_append, List.nil_append,
        List.length_cons, List.length_nil]
      exact decodeRune_two n rest (by omega) h2
    · by_cases h3 : n ≤ 0xFFFF
      · simp only [h1, h2, h3, if_false, if_true, List.cons_append, List.nil_append,
          List.length_cons, List.length_nil]
        exact decodeRune_three n rest (by omega) h3 (by omega)
      · simp only [h1, h2, h3, if_false, List.cons_append, List.nil_append,
          List.length_cons, List.length_nil]
        exact decodeRune_four n rest (by omega) (by omega)

theorem encodeRune_cons (c : Char) : ∃ b bs, encodeRune c = b :: bs := by
  unfold encodeRune
  simp only
  split_ifs <;> exact ⟨_, _, rfl⟩

theorem decodeRunesAux_utf8Encode (s : GoString) (fuel : Nat) (h : s.length ≤ fuel) :
    decodeRunesAux fuel (utf8Encode s) = s := by
  induction s generalizing fuel with
  | nil => cases fuel <;> rfl
  | cons c cs ih =>
    cases fuel with
    | zero => simp at h
    | succ fuel =>
      obtain ⟨b, bs, hb⟩ := encodeRune_cons c
      have hd := decodeRune_encodeRune c (utf8Encode cs)
      simp only [utf8Encode]
      rw [hb] at hd ⊢
      simp only [List.cons_append] at hd ⊢
      rw [decodeRunesAux, hd]
      simp only [Char.ofNat_toNat]
      have hdrop : (b :: (bs ++ utf8Encode cs)).drop (b :: bs).length = utf8Encode cs := by
        rw [← List.cons_append, List.drop_left]
      rw [hdrop, ih fuel (by simpa using h)]

theorem utf8Encode_length (s : GoString) : s.length ≤ (utf8Encode s).length := by
  induction s with
  | nil => simp [utf8Encode]
  | cons c cs ih =>
    obtain ⟨b, bs, hb⟩ := encodeRune_cons c
    simp only [utf8Encode, hb, List.cons_append, List.length_cons, List.length_append]
    omega

/-- Valid UTF-8 is read back as the text it encodes. -/
theorem decodeRunes_utf8Encode (s : GoString) : decodeRunes (utf8Encode s) = s :=
  decodeRunesAux_utf8Encode s _ (utf8Encode_length s)

theorem utf8Encode_append (s t : GoString) :
    utf8Encode (s ++ t) = utf8Encode s ++ utf8Encode t := by
  induction s with
  | nil => rfl
  | cons c cs ih =>
    simp only [List.cons_append, utf8Encode, List.append_eq, ih, List.append_assoc]

theorem requestBodyBytes_utf8Encode (role jwt : GoString) :
    requestBodyBytes (utf8Encode role) (utf8Encode jwt) = utf8Encode (requestBody role jwt) := by
  unfold requestBodyBytes requestBody
  simp only [utf8Encode_append]

/-! ## C1: `authenticate` on status 200 with a client token -/

/-- C1, as the code has it: the request is built, the peer answers 200, and
the first JSON value of the body is an object with exactly one member whose
key selects the field `auth` (compared without regard to case), that member
being an object with exactly one member whose key selects `client_token`,
with the string `t` as its value.  Then `authenticate` returns exactly `t` and
no error. -/
theorem authenticate_returns_client_token (w : World) (vaultAddr mount role jwt : GoString)
    (req : Request) (resp : Response) (members inner : List (GoString × JSON))
    (rest key key2 t : GoString)
    (hreq : NewRequest w "POST".toList (loginAddr vaultAddr mount) (requestBody role jwt)
      = (some req, none))
    (hdo : w.roundTrip { req with
      header := headerSet req.header "Content-Type".toList "application/json".toList } = .ok resp)
    (hcode : resp.StatusCode = 200)
    (hbody : parseJSON resp.Body.data = some (.object members, rest))
    (hauth : members.filter (fun m => matchesField "auth".toList m.1) = [(key, .object inner)])
    (htok : inner.filter (fun m => matchesField "client_token".toList m.1)
      = [(key2, .string t)]) :
    (authenticate w vaultAddr mount role jwt).outcome = .ret (t, none) := by
  rw [authenticate_ok_status w vaultAddr mount role jwt req resp hreq hdo hcode]
  have h1 := matches_of_filter_eq_singleton _ _ _ _ hauth
  have h2 := matches_of_filter_eq_singleton _ _ _ _ htok
  have hd : Decode resp.Body = (⟨⟨t⟩⟩, none) := by
    unfold Decode
    rw [hbody]
    simp only [JSON.isComposite, Bool.not_true, Bool.false_and, Bool.false_eq_true, if_false,
      unmarshal]
    rw [decodeLoginMembers_filter, hauth]
    simp only [decodeLoginMembers, h1, if_true, storeAuth]
    rw [decodeAuthMembers_filter, htok]
    simp only [decodeAuthMembers, h2, if_true, storeClientToken]
  rw [hd]

/-- C1 at a sample input: the body of the specification's example. -/
theorem authenticate_returns_client_token_witness :
    (authenticate worldOk "https://127.0.0.1:8200".toList "kubernetes".toList "demo".toList
      "eyJh.eyJz.c2ln".toList).outcome = .ret ("abc123".toList, none) :=
  authenticate_returns_client_token worldOk _ _ _ _
    ⟨"POST".toList, "https://127.0.0.1:8200/v1/auth/kubernetes/login".toList, [],
      requestBody "demo".toList "eyJh.eyJz.c2ln".toList⟩
    ⟨200, "\"\"".toList, "Proto:\"HTTP/1.1\"".toList,
      ⟨"\x7b\"auth\":\x7b\"client_token\":\"abc123\"\x7d\x7d".toList, none⟩⟩
    [("auth".toList, .object [("client_token".toList, .string "abc123".toList)])]
    [("client_token".toList, .string "abc123".toList)]
    [] "auth".toList "client_token".toList "abc123".toList
    (by decide) rfl (by decide) rfl rfl rfl

/-- C1 as stated fails: the body is the JSON object
`{"auth":{"client_token":"abc123","Client_Token":"zzz"}}`, whose
`auth.client_token` is the string `abc123`; `encoding/json` also accepts the
key `Client_Token` for the field, the later member wins, and `authenticate`
returns `zzz`. -/
theorem authenticate_folded_key_wins :
    (parseDocument
        "\x7b\"auth\":\x7b\"client_token\":\"abc123\",\"Client_Token\":\"zzz\"\x7d\x7d".toList).bind
      clientTokenOf = some "abc123".toList ∧
    (authenticate worldFoldedKey "https://127.0.0.1:8200".toList "kubernetes".toList
      "demo".toList "eyJh.eyJz.c2ln".toList).outcome = .ret ("zzz".toList, none) := by
  decide

/-! ## C2: `authenticate` on a status other than 200 -/

/-- C2: when the request is built and the peer answers with a status code
other than 200, `authenticate` returns the empty token and an error, whatever
the body holds.  The message of the error contains `StatusCode:` followed by
the status code in decimal, and ends with everything the body delivered. -/
theorem authenticate_rejected (w : World) (vaultAddr mount role jwt : GoString)
    (req : Request) (resp : Response)
    (hreq : NewRequest w "POST".toList (loginAddr vaultAddr mount) (requestBody role jwt)
      = (some req, none))
    (hdo : w.roundTrip { req with
      header := headerSet req.header "Content-Type".toList "application/json".toList } = .ok resp)
    (hcode : resp.StatusCode ≠ 200) :
    ∃ err, (authenticate w vaultAddr mount role jwt).outcome = .ret ([], some err) ∧
      (∃ front back, err.msg = front ++ ("StatusCode:".toList ++
        (toString resp.StatusCode).toList) ++ back) ∧
      (∃ front, err.msg = front ++ resp.Body.data) := by
  refine ⟨rejectedError resp resp.Body.data, ?_, ?_, ?_⟩
  · unfold authenticate
    simp only [hreq, hdo, hcode, if_true, ne_eq, not_false_eq_true]
  · refine ⟨"failed to get successful response: ".toList ++
      "&http.Response\x7bStatus:".toList ++ resp.statusQuoted ++ ", ".toList,
      ", ".toList ++ resp.otherFields ++ "\x7d".toList ++ ", ".toList ++ resp.Body.data, ?_⟩
    simp [rejectedError, responseGoSyntax]
  · exact ⟨_, rfl⟩

/-- C2 at a sample input: the peer answers 403 with a body that holds a client
token. -/
theorem authenticate_rejected_witness :
    ∃ err, (authenticate worldForbidden "https://127.0.0.1:8200".toList "kubernetes".toList
        "demo".toList "eyJh.eyJz.c2ln".toList).outcome = .ret ([], some err) ∧
      (∃ front back, err.msg = front ++ ("StatusCode:".toList ++ "403".toList) ++ back) ∧
      (∃ front, err.msg = front ++
        "\x7b\"auth\":\x7b\"client_token\":\"abc123\"\x7d\x7d".toList) :=
  authenticate_rejected worldForbidden _ _ _ _
    ⟨"POST".toList, "https://127.0.0.1:8200/v1/auth/kubernetes/login".toList, [],
      requestBody "demo".toList "eyJh.eyJz.c2ln".toList⟩
    ⟨403, "\"\"".toList, "Proto:\"HTTP/1.1\"".toList,
      ⟨"\x7b\"auth\":\x7b\"client_token\":\"abc123\"\x7d\x7d".toList, none⟩⟩
    (by decide) rfl (by decide)

/-! ## C3: `authenticate` on status 200 without a client token -/

/-- C3, as the code has it: the request is built, the peer answers 200, and
the first JSON value of the body is an object in which no member selects
`auth`, or exactly one does and it is an object in which no member selects
`client_token`, or exactly one does and it is the empty string.  Then
`authenticate` returns the empty token and a nil error. -/
theorem authenticate_empty_token_no_error (w : World) (vaultAddr mount role jwt : GoString)
    (req : Request) (resp : Response) (members : List (GoString × JSON)) (rest : GoString)
    (hreq : NewRequest w "POST".toList (loginAddr vaultAddr mount) (requestBody role jwt)
      = (some req, none))
    (hdo : w.roundTrip { req with
      header := headerSet req.header "Content-Type".toList "application/json".toList } = .ok resp)
    (hcode : resp.StatusCode = 200)
    (hbody : parseJSON resp.Body.data = some (.object members, rest))
    (hshape : members.filter (fun m => matchesField "auth".toList m.1) = [] ∨
      ∃ key inner, members.filter (fun m => matchesField "auth".toList m.1)
          = [(key, .object inner)] ∧
        (inner.filter (fun m => matchesField "client_token".toList m.1) = [] ∨
          ∃ key2, inner.filter (fun m => matchesField "client_token".toList m.1)
            = [(key2, .string [])])) :
    (authenticate w vaultAddr mount role jwt).outcome = .ret ([], none) := by
  rw [authenticate_ok_status w vaultAddr mount role jwt req resp hreq hdo hcode]
  have hd : Decode resp.Body = (⟨⟨[]⟩⟩, none) := by
    unfold Decode
    rw [hbody]
    simp only [JSON.isComposite, Bool.not_true, Bool.false_and, Bool.false_eq_true, if_false,
      unmarshal]
    rw [decodeLoginMembers_filter]
    rcases hshape with h | ⟨key, inner, hauth, h⟩
    · rw [h]
      rfl
    · have h1 := matches_of_filter_eq_singleton _ _ _ _ hauth
      rw [hauth]
      simp only [decodeLoginMembers, h1, if_true, storeAuth]
      rw [decodeAuthMembers_filter]
      rcases h with h | ⟨key2, htok⟩
      · rw [h]
        rfl
      · have h2 := matches_of_filter_eq_singleton _ _ _ _ htok
        rw [htok]
        simp only [decodeAuthMembers, h2, if_true, storeClientToken]
  rw [hd]

/-- C3 at a sample input: the body `{"auth":{}}`. -/
theorem authenticate_empty_token_no_error_witness :
    (authenticate worldEmptyAuth "https://127.0.0.1:8200".toList "kubernetes".toList
      "demo".toList "eyJh.eyJz.c2ln".toList).outcome = .ret ([], none) :=
  authenticate_empty_token_no_error worldEmptyAuth _ _ _ _
    ⟨"POST".toList, "https://127.0.0.1:8200/v1/auth/kubernetes/login".toList, [],
      requestBody "demo".toList "eyJh.eyJz.c2ln".toList⟩
    ⟨200, "\"\"".toList, "Proto:\"HTTP/1.1\"".toList, ⟨"\x7b\"auth\":\x7b\x7d\x7d".toList, none⟩⟩
    [("auth".toList, .object [])] []
    (by decide) rfl (by decide) rfl (Or.inr ⟨"auth".toList, [], rfl, Or.inl rfl⟩)

/-- C3 as stated fails: the peer answers 200 with the body `{"auth":{}}`, which
is JSON without `auth.client_token`; `authenticate` returns the empty token
with a nil error, and the run stores an empty token file and exits with
status 0. -/
theorem authenticate_missing_token_is_success :
    (parseDocument "\x7b\"auth\":\x7b\x7d\x7d".toList).isSome = true ∧
    (parseDocument "\x7b\"auth\":\x7b\x7d\x7d".toList).bind clientTokenOf = none ∧
    (authenticate worldEmptyAuth "https://127.0.0.1:8200".toList "kubernetes".toList
      "demo".toList "eyJh.eyJz.c2ln".toList).outcome = .ret ([], none) ∧
    (main worldEmptyAuth).status = .exited 0 ∧
    (main worldEmptyAuth).fs "/.vault-token".toList = some ⟨[], 0o600⟩ := by
  decide

/-! ## C4: the request body -/

/-- C4, as the code has it: when the role and the token are valid UTF-8, that
is the encodings of two texts, and neither text contains a double quote, a
backslash or a control character, the request body is a JSON document, an
object with exactly the members `role` and `jwt` in this order, and reading it
gives back the role and the token.  This holds for the body as text and for
the bytes that `fmt.Sprintf` puts together. -/
theorem requestBody_wellformed (role jwt : GoString)
    (hr : ∀ c ∈ role, isPlainChar c = true) (hj : ∀ c ∈ jwt, isPlainChar c = true) :
    parseDocument (requestBody role jwt)
      = some (.object [("role".toList, .string role), ("jwt".toList, .string jwt)]) ∧
    requestBodyBytes (utf8Encode role) (utf8Encode jwt) = utf8Encode (requestBody role jwt) ∧
    parseDocument (decodeRunes (requestBodyBytes (utf8Encode role) (utf8Encode jwt)))
      = some (.object [("role".toList, .string role), ("jwt".toList, .string jwt)]) := by
  have htext : parseDocument (requestBody role jwt)
      = some (.object [("role".toList, .string role), ("jwt".toList, .string jwt)]) := by
    unfold parseDocument
    rw [parseJSON_of_parseValue 4 _ _ _ (parseValue_requestBody 0 role jwt hr hj)]
    rfl
  refine ⟨htext, requestBodyBytes_utf8Encode role jwt, ?_⟩
  rw [requestBodyBytes_utf8Encode, decodeRunes_utf8Encode]
  exact htext

/-- C4 at a sample input: the role `demo` and a token of base64url
characters and dots. -/
theorem requestBody_wellformed_witness :
    parseDocument (requestBody "demo".toList "eyJh.eyJz.c2ln".toList)
      = some (.object [("role".toList, .string "demo".toList),
          ("jwt".toList, .string "eyJh.eyJz.c2ln".toList)]) ∧
    parseDocument (decodeRunes (requestBodyBytes (utf8Encode "demo".toList)
        (utf8Encode "eyJh.eyJz.c2ln".toList)))
      = some (.object [("role".toList, .string "demo".toList),
          ("jwt".toList, .string "eyJh.eyJz.c2ln".toList)]) :=
  ⟨(requestBody_wellformed "demo".toList "eyJh.eyJz.c2ln".toList (by decide) (by decide)).1,
   (requestBody_wellformed "demo".toList "eyJh.eyJz.c2ln".toList (by decide) (by decide)).2.2⟩

/-- C4 as stated fails: with the role `r"o` of the specification's example the
request body is `{"role": "r"o", "jwt": "eyJh.eyJz.c2ln"}`, which is not JSON;
the same holds for a role that ends in a backslash and for a role with a line
feed in it.  A role can also close its own literal and add a member: the
body is then JSON, and reads back with another role.  And a role that is not
valid UTF-8, the single byte 0xFF, holds none of these characters, yet reads
back as U+FFFD, the bytes EF BF BD. -/
theorem requestBody_not_escaped :
    requestBody "r\"o".toList "eyJh.eyJz.c2ln".toList
      = "\x7b\"role\": \"r\"o\", \"jwt\": \"eyJh.eyJz.c2ln\"\x7d".toList ∧
    (parseDocument (requestBody "r\"o".toList "eyJh.eyJz.c2ln".toList)).isNone = true ∧
    (parseDocument (requestBody "r\\".toList "eyJh.eyJz.c2ln".toList)).isNone = true ∧
    (parseDocument (requestBody "r\no".toList "eyJh.eyJz.c2ln".toList)).isNone = true ∧
    ((parseDocument (requestBody "a\", \"role\": \"b".toList "x".toList)).bind
      fun v => (v.member "role")).isSome = true ∧
    ((parseDocument (decodeRunes (requestBodyBytes [0xFF]
        (utf8Encode "eyJh.eyJz.c2ln".toList)))).bind (JSON.stringMember "role")).map utf8Encode
      = some [0xEF, 0xBF, 0xBD] := by
  decide

/-! ## C5: `saveToken` -/

/-- C5, as the code has it: when `saveToken` returns without error, the file at
the destination holds exactly the token.  A file that did not exist is created
with mode 0600 less the bits of the umask, so without any access for group or
others, and with mode 0600 exactly when the umask masks neither owner bit; a
file that existed keeps the mode it had. -/
theorem saveToken_writes (w : World) (fs : FS) (token dest : GoString)
    (h : (saveToken w fs token dest).2 = none) :
    ∃ f, (saveToken w fs token dest).1 dest = some f ∧ f.data = token ∧
      (∀ old, fs dest = some old → f.mode = old.mode) ∧
      (fs dest = none →
        f.mode = 0o600 &&& (0o777 ^^^ (w.umask % 0o1000)) ∧ f.mode &&& 0o077 = 0 ∧
          (w.umask &&& 0o600 = 0 → f.mode = 0o600)) := by
  unfold saveToken WriteFile at h ⊢
  cases hf : w.writeFault dest token with
  | openFails e => simp [hf] at h
  | writeFails n e => simp [hf] at h
  | closeFails e => simp [hf] at h
  | none =>
    cases ho : fs dest with
    | none =>
      exact ⟨⟨token, 0o600 &&& (0o777 ^^^ (w.umask % 0o1000))⟩, by simp, rfl, by simp,
        fun _ => ⟨rfl, createMode_private _, createMode_exact _⟩⟩
    | some old => exact ⟨⟨token, old.mode⟩, by simp, rfl, by simp, by simp⟩

/-- C5 at a sample input: no file at the destination, umask 022; the new file
holds the token and has mode 0600. -/
theorem saveToken_writes_witness :
    (saveToken worldOk worldOk.fs "abc123".toList "/.vault-token".toList).1
      "/.vault-token".toList = some ⟨"abc123".toList, 0o600⟩ := by
  obtain ⟨f, hf, hd, -, hn⟩ :=
    saveToken_writes worldOk worldOk.fs "abc123".toList "/.vault-token".toList (by decide)
  obtain ⟨-, -, hm⟩ := hn (by decide)
  have hm1 := hm (by decide)
  rw [hf]
  cases f
  simp only at hd hm1
  rw [hd, hm1]

/-- C5 as stated fails: a file with mode 0644 is at the destination;
`saveToken` returns no error, the file holds the token, and its mode is still
0644, readable by group and others. -/
theorem saveToken_keeps_wider_mode :
    (saveToken worldExistingDest worldExistingDest.fs "abc123".toList "/.vault-token".toList).2
        = none ∧
      (saveToken worldExistingDest worldExistingDest.fs "abc123".toList "/.vault-token".toList).1
        "/.vault-token".toList = some ⟨"abc123".toList, 0o644⟩ ∧
      (0o644 : Nat) ≠ 0o600 ∧ (0o644 : Nat) &&& 0o077 ≠ 0 := by
  decide

/-! ## C6: `main` and the destination file -/

/-- C6, as the code has it: a run that exits with status 0 has passed the
three stages, and the destination file then holds the token `authenticate`
returned; every other run exits non-zero.  When `VAULT_ROLE` is missing, the
token file cannot be read, or `authenticate` does not return a token without
error, the run performs no file write and leaves the file system as it was.
(A failure inside `saveToken` itself may leave the destination file truncated
or partly written.) -/
theorem main_stages (w : World) :
    ((main w).status = .exited 0 →
      ∃ jwt token, roleOf w ≠ [] ∧ readJwtToken w (saPathOf w) = (jwt, none) ∧
        (authenticate w (vaultAddrOf w) (mountPathOf w) (roleOf w) jwt).outcome
          = .ret (token, none) ∧
        (saveToken w w.fs token (destOf w)).2 = none ∧
        ((main w).fs (destOf w)).map File.data = some token) ∧
    ((main w).status ≠ .exited 0 → (main w).status.code ≠ 0) ∧
    ((roleOf w = [] ∨ (readJwtToken w (saPathOf w)).2 ≠ none ∨
        ∀ token, (authenticate w (vaultAddrOf w) (mountPathOf w) (roleOf w)
          (readJwtToken w (saPathOf w)).1).outcome ≠ .ret (token, none)) →
      (main w).status.code ≠ 0 ∧ (main w).fs = w.fs ∧
        ∀ p d m, Event.writeFile p d m ∉ (main w).events) := by
  unfold roleOf saPathOf vaultAddrOf mountPathOf destOf main
  by_cases hr : Getenv w "VAULT_ROLE" = []
  · simp [hr, ExitStatus.code]
  · rcases hj : readJwtToken w (getenvOr w "SERVICE_ACCOUNT_PATH"
        "/var/run/secrets/kubernetes.io/serviceaccount/token") with ⟨jwt, _ | err⟩
    · rcases ha : (authenticate w (getenvOr w "VAULT_ADDR" "https://127.0.0.1:8200")
          (getenvOr w "VAULT_K8S_MOUNT_PATH" "kubernetes") (Getenv w "VAULT_ROLE") jwt).outcome
        with ⟨tok, _ | err⟩ | m
      · have hs := saveToken_ok_data w w.fs tok (getenvOr w "TOKEN_DEST_PATH" "/.vault-token")
        rcases hv : saveToken w w.fs tok (getenvOr w "TOKEN_DEST_PATH" "/.vault-token")
          with ⟨fs1, _ | err⟩
        · rw [hv] at hs
          simp only [hr, if_false, hj, ha, hv]
          refine ⟨fun _ => ⟨jwt, tok, hr, rfl, ha, by rw [hv], hs rfl⟩, fun h => absurd rfl h, ?_⟩
          · intro h
            rcases h with h | h | h
            · exact h.elim
            · exact absurd rfl h
            · exact absurd rfl (h tok)
        · simp only [hr, if_false, hj, ha, hv]
          refine ⟨fun h => by simp at h, fun _ => by simp [ExitStatus.code], ?_⟩
          intro h
          rcases h with h | h | h
          · exact h.elim
          · exact absurd rfl h
          · exact absurd rfl (h tok)
      · simp [hr, hj, ha, ExitStatus.code]
      · simp [hr, hj, ha, ExitStatus.code]
    · simp [hr, hj, ExitStatus.code]

/-- C6 at a sample input: a successful run and a run that fails in
`readJwtToken`. -/
theorem main_stages_witness :
    ((main worldOk).fs (destOf worldOk)).map File.data = some "abc123".toList ∧
      (main worldNoTokenFile).fs = worldNoTokenFile.fs := by
  obtain ⟨jwt, token, -, hj, ha, -, hf⟩ := (main_stages worldOk).1 (by decide)
  have hj1 : jwt = "eyJh.eyJz.c2ln".toList := by
    have : readJwtToken worldOk (saPathOf worldOk) = ("eyJh.eyJz.c2ln".toList, none) := by decide
    rw [hj] at this
    exact (Prod.mk.inj this).1
  subst hj1
  have ht : token = "abc123".toList := by
    have : (authenticate worldOk (vaultAddrOf worldOk) (mountPathOf worldOk) (roleOf worldOk)
        "eyJh.eyJz.c2ln".toList).outcome = .ret ("abc123".toList, none) := by decide
    rw [ha] at this
    exact (Prod.mk.inj (Outcome.ret.inj this)).1
  subst ht
  exact ⟨hf, ((main_stages worldNoTokenFile).2.2 (Or.inr (Or.inl (by decide)))).2.1⟩

/-- C6 as stated fails: the disk is full, `authenticate` succeeds, `saveToken`
truncates the token file already at the destination and then fails; the run
exits with status 1 and the file that held `old-token` is now empty. -/
theorem main_write_failure_truncates :
    (main worldDiskFull).status = .exited 1 ∧
      worldDiskFull.fs "/.vault-token".toList = some ⟨"old-token".toList, 0o644⟩ ∧
      (main worldDiskFull).fs "/.vault-token".toList = some ⟨[], 0o644⟩ ∧
      (main worldDiskFull).fs "/.vault-token".toList ≠ worldDiskFull.fs "/.vault-token".toList := by
  decide

/-! ## C7: `readJwtToken` -/

/-- C7: when the token file can be read, `readJwtToken` returns, without
error, its content with the leading and the trailing white space removed and
the rest unchanged: the content is some white space, then the result, then
some white space; the result neither starts nor ends with white space, and
trimming it again changes nothing.  When the file cannot be read it returns
the empty string and an error. -/
theorem readJwtToken_trims (w : World) (path : GoString) :
    (∀ content, ReadFile w path = (content, none) →
      readJwtToken w path = (TrimSpace content, none) ∧
      (∃ lead trail, content = lead ++ TrimSpace content ++ trail ∧
        (∀ c ∈ lead, isSpace c = true) ∧ (∀ c ∈ trail, isSpace c = true)) ∧
      (∀ c, (TrimSpace content).head? = some c → isSpace c = false) ∧
      (∀ c, (TrimSpace content).getLast? = some c → isSpace c = false) ∧
      TrimSpace (TrimSpace content) = TrimSpace content) ∧
    (∀ data err, ReadFile w path = (data, some err) →
      readJwtToken w path = ([], some (errorsWrap err "failed to read jwt token".toList))) := by
  constructor
  · intro content h
    refine ⟨?_, TrimSpace_split content, TrimSpace_head content, TrimSpace_getLast content,
      TrimSpace_idem content⟩
    simp [readJwtToken, h]
  · intro data err h
    simp [readJwtToken, h]

/-- C7 at sample inputs: a token file with a leading space and a trailing
newline, and a missing token file. -/
theorem readJwtToken_trims_witness :
    readJwtToken worldOk defaultSaPath.toList = ("eyJh.eyJz.c2ln".toList, none) ∧
    (readJwtToken worldNoTokenFile defaultSaPath.toList).1 = [] ∧
    (readJwtToken worldNoTokenFile defaultSaPath.toList).2.isSome = true :=
  ⟨((readJwtToken_trims worldOk defaultSaPath.toList).1 " eyJh.eyJz.c2ln\n".toList
      (by decide)).1.trans (by decide),
   by rw [(readJwtToken_trims worldNoTokenFile defaultSaPath.toList).2 []
      ⟨"open ".toList ++ defaultSaPath.toList ++ ": no such file or directory".toList⟩ (by decide)],
   by rw [(readJwtToken_trims worldNoTokenFile defaultSaPath.toList).2 []
      ⟨"open ".toList ++ defaultSaPath.toList ++ ": no such file or directory".toList⟩ (by decide)]
      rfl⟩

/-! ## C8: `main` without a role -/

/-- C8: when `VAULT_ROLE` is unset or empty, `main` exits with status 1 without
any input/output action (no file read, no HTTP request, no file write), and
the file system is left as it was, whatever the other variables hold. -/
theorem main_missing_role (w : World)
    (h : w.env "VAULT_ROLE".toList = none ∨ w.env "VAULT_ROLE".toList = some []) :
    (main w).status = .exited 1 ∧ (main w).status.code ≠ 0 ∧ (main w).events = [] ∧
      (main w).fs = w.fs := by
  have hr : Getenv w "VAULT_ROLE" = [] := by
    unfold Getenv
    rcases h with h | h <;> rw [h] <;> rfl
  simp [main, hr, ExitStatus.code]

/-- C8 at a sample input: `VAULT_ROLE` unset while `VAULT_ADDR` is set. -/
theorem main_missing_role_witness :
    (main worldNoRole).status = .exited 1 ∧ (main worldNoRole).status.code ≠ 0 ∧
      (main worldNoRole).events = [] ∧ (main worldNoRole).fs = worldNoRole.fs :=
  main_missing_role worldNoRole (Or.inl (by decide))

/-! ## C9: the token `main` hands to `authenticate` -/

/-- C9, as the code has it: every request a run sends was built by
`authenticate` from the role and the white-space-trimmed content of the token
file; that token neither starts nor ends with white space and trimming it
again changes nothing.  It may be empty: `main` does not check it. -/
theorem main_jwt_trimmed (w : World) (req : Request) (h : Event.httpDo req ∈ (main w).events) :
    ∃ content, ReadFile w (saPathOf w) = (content, none) ∧
      req ∈ (authenticate w (vaultAddrOf w) (mountPathOf w) (roleOf w) (TrimSpace content)).sent ∧
      req.body = requestBody (roleOf w) (TrimSpace content) ∧
      (∀ c, (TrimSpace content).head? = some c → isSpace c = false) ∧
      (∀ c, (TrimSpace content).getLast? = some c → isSpace c = false) ∧
      TrimSpace (TrimSpace content) = TrimSpace content := by
  unfold roleOf saPathOf vaultAddrOf mountPathOf
  unfold main at h
  by_cases hr : Getenv w "VAULT_ROLE" = []
  · simp [hr] at h
  · rcases hf : ReadFile w (getenvOr w "SERVICE_ACCOUNT_PATH"
        "/var/run/secrets/kubernetes.io/serviceaccount/token") with ⟨content, _ | err⟩
    · have hj : readJwtToken w (getenvOr w "SERVICE_ACCOUNT_PATH"
          "/var/run/secrets/kubernetes.io/serviceaccount/token") = (TrimSpace content, none) := by
        simp [readJwtToken, hf]
      have hmem : req ∈ (authenticate w (getenvOr w "VAULT_ADDR" "https://127.0.0.1:8200")
          (getenvOr w "VAULT_K8S_MOUNT_PATH" "kubernetes") (Getenv w "VAULT_ROLE")
          (TrimSpace content)).sent := by
        simp only [hr, if_false, hj] at h
        split at h
        · simpa using h
        · simpa using h
        · split at h
          · simpa using h
          · simpa using h
      exact ⟨content, rfl, hmem, authenticate_sent_body _ _ _ _ _ _ hmem,
        TrimSpace_head content, TrimSpace_getLast content, TrimSpace_idem content⟩
    · have hj : readJwtToken w (getenvOr w "SERVICE_ACCOUNT_PATH"
          "/var/run/secrets/kubernetes.io/serviceaccount/token")
          = ([], some (errorsWrap err "failed to read jwt token".toList)) := by
        simp [readJwtToken, hf]
      simp [hr, hj] at h

/-- C9 at a sample input: the request of a successful run carries the trimmed
content of the token file. -/
theorem main_jwt_trimmed_witness :
    ∃ content, ReadFile worldOk (saPathOf worldOk) = (content, none) ∧
      (⟨"POST".toList, "https://127.0.0.1:8200/v1/auth/kubernetes/login".toList,
          [("Content-Type".toList, "application/json".toList)],
          "\x7b\"role\": \"demo\", \"jwt\": \"eyJh.eyJz.c2ln\"\x7d".toList⟩ : Request).body
        = requestBody (roleOf worldOk) (TrimSpace content) :=
  (main_jwt_trimmed worldOk _ (by decide)).imp fun _ h => ⟨h.1, h.2.2.1⟩

/-- C9 as stated fails: the token file holds only white space; `main` calls
`authenticate` with the empty token, and the login request is sent with an
empty `jwt`. -/
theorem main_sends_empty_jwt :
    ReadFile worldBlankToken (saPathOf worldBlankToken) = (" \n".toList, none) ∧
      readJwtToken worldBlankToken (saPathOf worldBlankToken) = ([], none) ∧
      Event.httpDo ⟨"POST".toList, "https://127.0.0.1:8200/v1/auth/kubernetes/login".toList,
          [("Content-Type".toList, "application/json".toList)],
          "\x7b\"role\": \"demo\", \"jwt\": \"\"\x7d".toList⟩ ∈ (main worldBlankToken).events := by
  decide

/-! ## C10: `authenticate` when the request cannot be built -/

/-- C10, the behaviour of the code: when `url.Parse` refuses the login
address, `http.NewRequest` returns a nil request and an error;
`authenticate` then panics with a nil dereference at `req.Header.Set`
(line 87), before the error check of line 88 is reached, so it returns no
error at all, in particular not the wrapped error of line 89.  No request is
sent. -/
theorem authenticate_malformed_url_panics (w : World) (vaultAddr mount role jwt : GoString)
    (e : GoError) (h : urlParseError w (loginAddr vaultAddr mount) = some e) :
    NewRequest w "POST".toList (loginAddr vaultAddr mount) (requestBody role jwt)
      = (none, some e) ∧
    authenticate w vaultAddr mount role jwt = ⟨.panic nilDereference, []⟩ ∧
    ∀ token err, (authenticate w vaultAddr mount role jwt).outcome ≠ .ret (token, err) := by
  have hn : NewRequest w "POST".toList (loginAddr vaultAddr mount) (requestBody role jwt)
      = (none, some e) := by
    unfold NewRequest
    rw [h]
  have ha : authenticate w vaultAddr mount role jwt = ⟨.panic nilDereference, []⟩ := by
    unfold authenticate
    simp only [hn]
  refine ⟨hn, ha, ?_⟩
  intro token err
  rw [ha]
  exact fun hc => Outcome.noConfusion hc

/-- C10 at a sample input: `VAULT_ADDR` ends in a newline; `authenticate`
panics and `main` ends with a panic instead of `log.Fatal`. -/
theorem authenticate_malformed_url_panics_witness :
    authenticate worldBadAddr "https://vault:8200\n".toList "kubernetes".toList "demo".toList
        "eyJh.eyJz.c2ln".toList = ⟨.panic nilDereference, []⟩ ∧
      (main worldBadAddr).status = .panicked :=
  ⟨(authenticate_malformed_url_panics worldBadAddr _ _ _ _
      ⟨"parse: net/url: invalid control character in URL".toList⟩ (by decide)).2.1,
   by decide⟩

end VaultAuth
